import Mathlib

/-!
# Serime serializer/deserializer — verification development

A shallow embedding of the Serime textual serialization format
(`Serializer` in `src/internal/scoped/serialization/Serializer.ts`,
`Deserializer`, `SerializedBlockInfo` and the shared helpers in
`src/internal/`), together with proofs about the embedded code.

Strings are modelled as `List Char`.  JavaScript numbers are modelled by
`JSNum`, a tagged value that keeps NaN, signed infinities and a signed
finite magnitude (so that `+0` and `-0` stay distinct, as they do under
`Object.is`).  Host primitives (`Number.prototype.toString`,
`Number(...)`) are either modelled exactly on the fragment the code can
produce, or taken as parameters constrained by the properties the host
guarantees.

JavaScript object identity is modelled with an explicit heap: an object
value is an address into a list of `ObjData` records, so shared and
cyclic object graphs are representable.
-/

set_option maxRecDepth 10000

namespace Serime

abbrev Str := List Char

/-! ## Decimal digits (JS `String(n)` for a non-negative integer, and
`Number(s)` on an all-digit string) -/

/-- The character for a single decimal digit value. -/
def digitChar (d : Nat) : Char := Char.ofNat (48 + d)

/-- Fuel-driven decimal printer (most significant digit first). -/
def natDigitsAux : Nat → Nat → Str
  | 0, _ => []
  | fuel + 1, n =>
    if n < 10 then [digitChar n]
    else natDigitsAux fuel (n / 10) ++ [digitChar (n % 10)]

/-- Decimal digit string of `n`, as JS `String(n)` produces for a
non-negative integer. -/
def natDigits (n : Nat) : Str := natDigitsAux (n + 1) n

/-- Numeric value of a digit character. -/
def digitVal (c : Char) : Nat := c.toNat - 48

/-- Value of a decimal digit string (JS `Number(s)` on an all-digit `s`;
the empty string gives `0`, matching `Number("")`). -/
def digitsVal (s : Str) : Nat := s.foldl (fun a c => a * 10 + digitVal c) 0

/-- Decimal digits of an integer, as JS `BigInt.prototype.toString`. -/
def intDigits (i : Int) : Str :=
  if i < 0 then '-' :: natDigits i.natAbs else natDigits i.natAbs

/-! ## Reserved characters and the escape codec

`Serializer.RESERVED_CHARACTERS` and `Serializer.escape` /
`Deserializer.unescape`. -/

/-- `Serializer.RESERVED_CHARACTERS`. -/
def RESERVED_CHARACTERS : List Char :=
  ['&', ';', '!', '@', '#', '%', '[', ']', '\x7b', '\x7d', '|', ',', '=', '$', ':', '~']

/-- Membership in the reserved set (`Serializer.RESERVED_REGEX` matches
exactly one reserved character at a time). -/
def isReserved (c : Char) : Bool := RESERVED_CHARACTERS.contains c

/-- The replacement `Serializer.escape` makes for one reserved character:
`'&' + charCodeAt(0) + ';'`. -/
def escapeChar (c : Char) : Str := '&' :: (natDigits c.toNat ++ [';'])

/-- `Serializer.escape`: every reserved character is replaced by its
`&<decimal charcode>;` sequence; everything else passes through. -/
def escape (s : Str) : Str :=
  s.flatMap fun c => if isReserved c then escapeChar c else [c]

/-- JS `String.fromCharCode` (the code is reduced mod 2^16; all codes the
codec produces are ASCII, where `Char.ofNat` is exact). -/
def jsFromCharCode (n : Nat) : Char := Char.ofNat (n % 65536)

/-- One-pass scanner equivalent to the global regex replace
`s.replace(/&(\d+);/gm, (_, code) => String.fromCharCode(+code))` used by
`Deserializer.unescape`: a match is an `'&'`, a maximal non-empty digit
run, then `';'`.  The first argument accumulates the digits of a
candidate match in reverse-free order once an `'&'` has been seen. -/
def unescapeAux : Option Str → Str → Str
  | none, [] => []
  | some ds, [] => '&' :: ds
  | none, c :: rest =>
    if c = '&' then unescapeAux (some []) rest
    else c :: unescapeAux none rest
  | some ds, c :: rest =>
    if c.isDigit then unescapeAux (some (ds ++ [c])) rest
    else if c = ';' then
      if ds = [] then '&' :: ';' :: unescapeAux none rest
      else jsFromCharCode (digitsVal ds) :: unescapeAux none rest
    else if c = '&' then ('&' :: ds) ++ unescapeAux (some []) rest
    else ('&' :: ds) ++ (c :: unescapeAux none rest)

/-- `Deserializer.unescape`. -/
def unescape (s : Str) : Str := unescapeAux none s

/-- Scanner state machine for `onlyEscapedReserved`: outside an escape
(`none`) a reserved character other than `'&'` is rejected; after an
`'&'` (`some ds`, digits seen so far) only digits may occur until a
`';'` closes a non-empty run. -/
def onlyEscapedAux : Option Str → Str → Bool
  | none, [] => true
  | some _, [] => false
  | none, c :: rest =>
    if c = '&' then onlyEscapedAux (some []) rest
    else if isReserved c then false
    else onlyEscapedAux none rest
  | some ds, c :: rest =>
    if c.isDigit then onlyEscapedAux (some (ds ++ [c])) rest
    else if c = ';' then decide (ds ≠ []) && onlyEscapedAux none rest
    else false

/-- Checks that every reserved character of `s` occurs only as part of an
`&<digits>;` escape sequence. -/
def onlyEscapedReserved (s : Str) : Bool := onlyEscapedAux none s

/-! ## JavaScript numbers (`Serializer.serializeNumber`,
`Deserializer.deserializeNumber`)

A JS number is NaN, a signed infinity, or a signed finite magnitude.
The magnitude type `M` and its host printer/parser
(`Math.abs(n).toString()` / `Number(s)` on finite payloads) are
parameters; the pipeline instantiates them with `Nat` magnitudes. -/

inductive JSNum (M : Type) where
  | nan : JSNum M
  | inf (neg : Bool) : JSNum M
  | fin (neg : Bool) (mag : M) : JSNum M
deriving DecidableEq, Repr

def nanChars : Str := ['N', 'a', 'N']

def infinityChars : Str := ['I', 'n', 'f', 'i', 'n', 'i', 't', 'y']

/-- `Serializer.serializeNumber`: `"NaN"` for NaN, otherwise
`sign + Math.abs(number).toString()` where the sign character is `'-'`
exactly when `number > 0 || Object.is(number, 0)` fails — i.e. for
negative numbers and for `-0` (`Object.is(-0, 0)` is false).
`Math.abs` of an infinity prints as `"Infinity"`. -/
def serializeNumberWith {M : Type} (mts : M → Str) : JSNum M → Str
  | .nan => nanChars
  | .inf neg => (if neg then ['-'] else []) ++ infinityChars
  | .fin neg m => (if neg then ['-'] else []) ++ mts m

/-- JS multiplication by `-1` (`sign * digits` in
`Deserializer.deserializeNumber`): flips the sign of a zero
(`-1 * 0` is `-0`), an infinity, and any finite value; `NaN` stays. -/
def jsNegateNum {M : Type} : JSNum M → JSNum M
  | .nan => .nan
  | .inf b => .inf (!b)
  | .fin b m => .fin (!b) m

/-- `Deserializer.deserializeNumber`, with `Number(...)` on the
sign-stripped payload supplied as `parse`. -/
def deserializeNumberWith {M : Type} (parse : Str → JSNum M) (s : Str) : JSNum M :=
  if s = nanChars then .nan
  else if s.head? = some '-' then jsNegateNum (parse (s.drop 1))
  else parse s

/-- The host `Number(s)` restricted to the payload fragment the model's
serializer can produce: `"Infinity"`, or a digit string (the model keeps
natural-number magnitudes); anything else parses as NaN. -/
def numberFn (s : Str) : JSNum Nat :=
  if s = infinityChars then .inf false
  else if s ≠ [] ∧ s.all Char.isDigit then .fin false (digitsVal s)
  else .nan

def serializeNumber : JSNum Nat → Str := serializeNumberWith natDigits

def deserializeNumber : Str → JSNum Nat := deserializeNumberWith numberFn

/-! ## The value universe and the heap

JS object identity is an address into an explicit heap.  `ObjData.props`
are the own string-keyed properties together with their
property-descriptor bitflag (`PropertyDescriptorFlag`:
`IS_CONFIGURABLE = 4`, `IS_ENUMERABLE = 8`, `IS_WRITABLE = 16`).
`Map` contents live in `mapEntries`, `Set` contents in `setElems`
(a `Set`'s elements are not own properties, which is what makes
`Object.entries` of a set empty). -/

inductive ObjKind where
  | object : ObjKind
  | array : ObjKind
  | mapObj : ObjKind
  | setObj : ObjKind
  | dateObj (repr : Str) : ObjKind
  | custom (ctorId : Nat) (ctorName : Str) : ObjKind
deriving DecidableEq, Repr

inductive JSValue where
  | vnull : JSValue
  | vundef : JSValue
  | vbool (b : Bool) : JSValue
  | vnum (n : JSNum Nat) : JSValue
  | vstr (s : Str) : JSValue
  | vbig (i : Int) : JSValue
  | vsym (idx : Nat) : JSValue
  | vfn (name : Str) (src : Str) : JSValue
  | vobj (addr : Nat) : JSValue
deriving DecidableEq, Repr

structure ObjData where
  kind : ObjKind
  props : List (Str × JSValue × Nat)
  mapEntries : List (JSValue × JSValue)
  setElems : List JSValue
  isFrozen : Bool
  isSealed : Bool
  isExtensible : Bool
deriving DecidableEq, Repr

abbrev Heap := List ObjData

/-- A freshly created object/array/map/set: no contents, extensible. -/
def ObjData.empty (k : ObjKind) : ObjData := ⟨k, [], [], [], false, false, true⟩

/-- Is the value a (positive or negative) numeric zero?  `value !== 0`
in `Serializer.mark` is false for both `+0` and `-0` since `-0 === 0`. -/
def isJSZero : JSValue → Bool
  | .vnum (.fin _ 0) => true
  | _ => false

/-- JS `Map` key equality (SameValueZero): NaN equals NaN, `+0` equals
`-0`; everything else is identity / primitive equality, which the
structural equality of `JSValue` models. -/
def sameValueZero (a b : JSValue) : Bool := decide (a = b) || (isJSZero a && isJSZero b)

/-- `IS_ENUMERABLE` bit (`2 << 2`). -/
def isEnumerableFlag (f : Nat) : Bool := f &&& 8 = 8

/-- `Serializer.entries`: `Object.entries` for arrays and sets (own
enumerable string-keyed properties — empty for a pure set),
`map.entries()` for maps, `Object.getOwnPropertyNames` (all own
string-keyed properties) for plain objects and custom instances. -/
def ObjData.jsEntries (d : ObjData) : List (JSValue × JSValue) :=
  match d.kind with
  | .array => (d.props.filter fun p => isEnumerableFlag p.2.2).map fun p => (.vstr p.1, p.2.1)
  | .mapObj => d.mapEntries
  | .setObj => (d.props.filter fun p => isEnumerableFlag p.2.2).map fun p => (.vstr p.1, p.2.1)
  | _ => d.props.map fun p => (.vstr p.1, p.2.1)

def ObjKind.isMapOrSet : ObjKind → Bool
  | .mapObj => true
  | .setObj => true
  | _ => false

/-! ## Serialized-output tokens

The encoder's string output is the flattening of a token list: a
reference declaration `@<id>=`, a reference pointer `#<id>`, or a plain
character.  Concatenation of output fragments is concatenation of token
lists, so this is a faithful refinement of the string-building code. -/

inductive Tok where
  | decl (id : Nat) : Tok
  | ptr (id : Nat) : Tok
  | chr (c : Char) : Tok
deriving DecidableEq, Repr

def flattenTok : Tok → Str
  | .decl id => '@' :: (natDigits id ++ ['='])
  | .ptr id => '#' :: natDigits id
  | .chr c => [c]

def flatten (l : List Tok) : Str := l.flatMap flattenTok

/-- Literal characters as tokens. -/
def lit (s : Str) : List Tok := s.map Tok.chr

/-! ## Configuration and serializer state -/

structure SharedConfig where
  DebugMode : Bool
  Functions : Bool
  Metadata : Bool
deriving DecidableEq, Repr

/-- Modelled from the spec: `DEFAULT_SHARED_CONFIGURATION`
(`src/internal/shared/config.ts` is not among the provided sources);
§4.10 of the spec: function support and metadata are off by default. -/
def DEFAULT_SHARED_CONFIGURATION : SharedConfig := ⟨false, false, false⟩

/-- The number of entries of `Serializer.WELL_KNOWN_SYMBOLS` (the
well-known symbols found on the host's `Symbol` constructor); the exact
count is host-dependent and the model fixes a representative value. -/
def WELL_KNOWN_SYMBOL_COUNT : Nat := 13

/-- The mutable fields of a `Serializer` instance. -/
structure SState where
  ticks : Nat
  ref_ids : Nat
  ref_map : List (JSValue × Nat)
  ref_usage : Nat
  custom_ctors : List (Nat × Str)
deriving DecidableEq, Repr

def freshSState : SState := ⟨0, 0, [], 0, []⟩

/-- `Serializer.wipe` (the configuration is a parameter of the model, so
only the mutable buffers are reset). -/
def wipeState (_st : SState) : SState := freshSState

/-- `Map.has/get` over the value→id reference map (SameValueZero keys;
zeros are never inserted, see `Serializer.mark`). -/
def lookupRef : List (JSValue × Nat) → JSValue → Option Nat
  | [], _ => none
  | (k, id) :: rest, v => if sameValueZero k v then some id else lookupRef rest v

inductive SerErr where
  | outOfFuel : SerErr
  | invalidHeapAddress : SerErr
  | propertyMissing : SerErr
  | nonWellKnownSymbol : SerErr
  | functionsDisabled : SerErr
  | metadataUnsupported : SerErr
deriving DecidableEq, Repr

/-! ## The encoder

`serializeStep` merges the mutually recursive private methods of
`Serializer` into one fuel-indexed function: `.value` is `#serialize`
(that is, `mark` wrapping the type dispatch), `.body` is the
type-dispatched serializer body, `.entryList` is the entry-reduction of
`serializeObject` (each entry rendered by `serializeObjectKeyIndex`,
`:`, and the serialized value, `,`-separated). -/

inductive SCmd where
  | value (v : JSValue) : SCmd
  | body (v : JSValue) : SCmd
  | entryList (addr : Nat) (es : List (JSValue × JSValue)) (idx : Nat) : SCmd

/-- `Serializer.propertyDescriptorFlag`: empty flags for maps and sets;
otherwise the property must exist and its configurable / enumerable /
writable bits (mask 28) are collected. -/
def propertyDescriptorFlag (d : ObjData) (k : JSValue) : Except SerErr Nat :=
  if d.kind.isMapOrSet then .ok 0
  else
    match k with
    | .vstr ks =>
      match d.props.find? (fun p => p.1 = ks) with
      | some p => .ok (p.2.2 &&& 28)
      | none => .error .propertyMissing
    | _ => .error .propertyMissing

def serializeStep (heap : Heap) (cfg : SharedConfig) :
    Nat → SCmd → SState → Except SerErr (List Tok × SState)
  | 0, _, _ => .error .outOfFuel
  | fuel + 1, .value v, st =>
    -- `Serializer.mark`
    match lookupRef st.ref_map v with
    | some id => .ok ([.ptr id], { st with ref_usage := st.ref_usage + 1 })
    | none =>
      let id := st.ref_ids
      let st1 : SState :=
        { st with
          ref_map := if isJSZero v then st.ref_map else (v, id) :: st.ref_map
          ref_ids := id + 1 }
      match serializeStep heap cfg fuel (.body v) st1 with
      | .error e => .error e
      | .ok (body, st2) => .ok (.decl id :: body, st2)
  | fuel + 1, .body v, st0 =>
    let st := { st0 with ticks := st0.ticks + 1 }
    match v with
    | .vnull => .ok (lit ['0'], st)
    | .vundef => .ok (lit ['1', '0'], st)
    | .vbool b => .ok (lit ['8', '|', if b then 'T' else 'F'], st)
    | .vnum n => .ok (lit ('2' :: '|' :: serializeNumber n), st)
    | .vstr s => .ok (lit ('1' :: '|' :: escape s), st)
    | .vbig i => .ok (lit ('1' :: '1' :: '|' :: intDigits i), st)
    | .vsym i =>
      if i < WELL_KNOWN_SYMBOL_COUNT then .ok (lit ('7' :: '|' :: natDigits i), st)
      else .error .nonWellKnownSymbol
    | .vfn name src =>
      -- `Serializer.serializeFunction`: gated by the configuration; the
      -- output is the (unescaped) name, `~`, and the escaped source.
      if cfg.Functions then .ok (lit ('9' :: '|' :: (name ++ '~' :: escape src)), st)
      else .error .functionsDisabled
    | .vobj a =>
      match heap[a]? with
      | none => .error .invalidHeapAddress
      | some d =>
        match d.kind with
        | .dateObj r => .ok (lit ('1' :: '2' :: '|' :: escape r), st)
        | k =>
          -- `Serializer.shorthandConstructor` for the container kinds
          let tagged : Str × SState :=
            match k with
            | .object => (['3'], st)
            | .array => (['4'], st)
            | .mapObj => (['5'], st)
            | .setObj => (['6'], st)
            | .custom cid cname =>
              match st.custom_ctors.findIdx? (fun p => p.1 = cid) with
              | some i => ('$' :: natDigits i, st)
              | none =>
                ('$' :: natDigits st.custom_ctors.length,
                  { st with custom_ctors := st.custom_ctors ++ [(cid, cname)] })
            | .dateObj _ => (['1', '2'], st)
          match serializeStep heap cfg fuel (.entryList a d.jsEntries 0) tagged.2 with
          | .error e => .error e
          | .ok (body, st2) =>
            .ok (lit tagged.1 ++ [.chr '|', .chr '\x7b'] ++ body ++ [.chr '\x7d'], st2)
  | fuel + 1, .entryList a es idx, st =>
    match es with
    | [] => .ok ([], st)
    | (k, val) :: rest =>
      match heap[a]? with
      | none => .error .invalidHeapAddress
      | some d =>
        match propertyDescriptorFlag d k with
        | .error e => .error e
        | .ok flags =>
          match serializeStep heap cfg fuel (.value k) st with
          | .error e => .error e
          | .ok (sk, st1) =>
            match serializeStep heap cfg fuel (.value val) st1 with
            | .error e => .error e
            | .ok (sv, st2) =>
              match serializeStep heap cfg fuel (.entryList a rest (idx + 1)) st2 with
              | .error e => .error e
              | .ok (tailToks, st3) =>
                let sep : List Tok := if idx ≠ 0 then [.chr ','] else []
                .ok (sep ++ ([.chr '['] ++ sk ++ [.chr ']', .chr '%'] ++
                  lit (natDigits flags) ++ [.chr ':'] ++ sv) ++ tailToks, st3)

/-! ## `Serializer.clean`

String-level scanners with exactly the regex semantics the source relies
on: `declMatches` lists the matches of the global regex `@\d+=` (as their
digit runs, in order); `ptrAt`/`hasPtrMatch` test for a match of
`#<id>(\D)` (the id digits taken literally, followed by one non-digit
character, which a global replace also consumes); `replaceFirst` is the
single-occurrence `String.replace`. -/

def declMatchesAux : Option Str → Str → List Str
  | _, [] => []
  | none, c :: rest =>
    if c = '@' then declMatchesAux (some []) rest else declMatchesAux none rest
  | some ds, c :: rest =>
    if c.isDigit then declMatchesAux (some (ds ++ [c])) rest
    else if c = '=' then
      if ds = [] then declMatchesAux none rest else ds :: declMatchesAux none rest
    else if c = '@' then declMatchesAux (some []) rest
    else declMatchesAux none rest

def declMatches (s : Str) : List Str := declMatchesAux none s

/-- State machine listing the matches of the regex `#\d+`: each match is
reported as its (maximal, non-empty) digit run, in order.  Used to count
the reference pointers of an output. -/
def ptrMatchesAux : Option Str → Str → List Str
  | none, [] => []
  | some ds, [] => if ds = [] then [] else [ds]
  | none, c :: rest =>
    if c = '#' then ptrMatchesAux (some []) rest else ptrMatchesAux none rest
  | some ds, c :: rest =>
    if c.isDigit then ptrMatchesAux (some (ds ++ [c])) rest
    else if c = '#' then
      (if ds = [] then [] else [ds]) ++ ptrMatchesAux (some []) rest
    else (if ds = [] then [] else [ds]) ++ ptrMatchesAux none rest

def ptrMatches (s : Str) : List Str := ptrMatchesAux none s

/-- Does a match of `#<ds>(\D)` start at the head of `s`? -/
def ptrAt (s ds : Str) : Bool :=
  match s with
  | [] => false
  | c :: rest =>
    decide (c = '#') && ds.isPrefixOf rest &&
      (match rest.drop ds.length with
       | c2 :: _ => !c2.isDigit
       | [] => false)

def hasPtrMatch : Str → Str → Bool
  | [], _ => false
  | c :: rest, ds => ptrAt (c :: rest) ds || hasPtrMatch rest ds

/-- `String.replace` with a plain pattern: replace the leftmost
occurrence of `pat` (if any) by `rep`. -/
def replaceFirst : Str → Str → Str → Str
  | [], _, _ => []
  | c :: rest, pat, rep =>
    if pat.isPrefixOf (c :: rest) then rep ++ (c :: rest).drop pat.length
    else c :: replaceFirst rest pat rep

/-- The global replace of `#<ds>(\D)` by `#<newDs>` plus the captured
non-digit character; scanning resumes after the consumed character. -/
def replacePtrAux : Nat → Str → Str → Str → Str
  | 0, s, _, _ => s
  | fuel + 1, s, ds, newDs =>
    match s with
    | [] => []
    | c :: rest =>
      if ptrAt (c :: rest) ds then
        match (c :: rest).drop (1 + ds.length) with
        | d :: tail => ('#' :: newDs) ++ d :: replacePtrAux fuel tail ds newDs
        | [] => c :: rest
      else c :: replacePtrAux fuel rest ds newDs

def replacePtrGlobal (s ds newDs : Str) : Str := replacePtrAux s.length s ds newDs

/-- One iteration of the `forEach` in `Serializer.clean`, processing the
declaration whose id digits are `idStr`: if no pointer consumes it the
declaration prefix is stripped in place, otherwise the declaration and
all its pointers are renumbered to the compacted counter. -/
def cleanStep (acc : Str × Nat) (idStr : Str) : Str × Nat :=
  if hasPtrMatch acc.1 idStr then
    let cur1 := replaceFirst acc.1 ('@' :: (idStr ++ ['='])) ('@' :: (natDigits acc.2 ++ ['=']))
    let cur2 := replacePtrGlobal cur1 idStr (natDigits acc.2)
    (cur2, acc.2 + 1)
  else
    (replaceFirst acc.1 ('@' :: (idStr ++ ['='])) [], acc.2)

/-- `Serializer.clean`: the declaration matches are enumerated on the
original string, then processed in order against the evolving string. -/
def clean (s : Str) : Str := ((declMatches s).foldl cleanStep (s, 0)).1

/-! ## Token-level view of serialized output, for reasoning about
`clean`

A well-formed encoder output is the flattening of a token list whose
plain characters are never `@` or `#` (escaping guarantees this), whose
pointers are each immediately followed by a non-digit plain character
(`]`, `,` or `}` in the encoder), whose declaration ids are exactly
`0, 1, …, n-1` in order, and whose pointer ids are all declared. -/

/-- The declaration ids of a token list, in order. -/
def declIds (l : List Tok) : List Nat :=
  l.filterMap fun t => match t with | .decl i => some i | _ => none

/-- The pointer ids of a token list, in order. -/
def ptrIds (l : List Tok) : List Nat :=
  l.filterMap fun t => match t with | .ptr i => some i | _ => none

def chrOkTok : Tok → Bool
  | .chr c => decide (c ≠ '@') && decide (c ≠ '#')
  | _ => true

/-- No plain character of the token list is `@` or `#`. -/
def chrOk (l : List Tok) : Bool := l.all chrOkTok

/-- Every pointer is immediately followed by a non-digit plain
character. -/
def ptrClosedOk : List Tok → Bool
  | [] => true
  | .ptr _ :: rest =>
    (match rest with
     | .chr c :: _ => !c.isDigit
     | _ => false) && ptrClosedOk rest
  | _ :: rest => ptrClosedOk rest

/-- How many ids below `j` satisfy `K` (the compacted id a kept
declaration `j` receives). -/
def cnt (K : Nat → Bool) (j : Nat) : Nat := ((List.range j).filter K).length

/-- The shape of the evolving string after `clean` has processed the
declarations with ids below `j`: kept declarations and their pointers
are renumbered to their compacted ids, dead declarations are removed,
ids from `j` on are untouched. -/
def tokMap (K : Nat → Bool) (j : Nat) : Tok → List Tok
  | .decl d => if d < j then (if K d then [.decl (cnt K d)] else []) else [.decl d]
  | .ptr p => if p < j then [.ptr (cnt K p)] else [.ptr p]
  | .chr c => [.chr c]

def transform (K : Nat → Bool) (j : Nat) (l : List Tok) : List Tok :=
  l.flatMap (tokMap K j)

/-- Renaming of one pointer id over tokens. -/
def ptrRename (a b : Nat) : Tok → Tok
  | .ptr p => if p = a then .ptr b else .ptr p
  | t => t

/-- The declarations `clean` keeps: those consumed by some pointer. -/
def keepSet (l : List Tok) : Nat → Bool := fun x => decide (x ∈ ptrIds l)

/-- Modelled from the spec: `SerializationFormatToken.DEPENDENCIES_S` /
`DEPENDENDIES_E` as used by `Serializer.serialize`: the dependency
prelude is `![name1,name2,…]!`. -/
def DEPENDENCIES_S : Str := ['!', '[']

def DEPENDENDIES_E : Str := [']', '!']

def joinComma : List Str → Str
  | [] => []
  | [s] => s
  | s :: rest => s ++ ',' :: joinComma rest

/-- `Serializer.serialize`: wipe, refuse metadata, serialize recursively,
prepend the dependency prelude when custom constructors were referenced,
and `clean` the body. -/
def serializeTop (heap : Heap) (cfg : SharedConfig) (fuel : Nat) (v : JSValue)
    (st : SState) : Except SerErr Str :=
  let st1 := wipeState st
  if cfg.Metadata then .error .metadataUnsupported
  else
    match serializeStep heap cfg fuel (.value v) st1 with
    | .error e => .error e
    | .ok (toks, st2) =>
      let deps : Str :=
        if st2.custom_ctors = [] then []
        else DEPENDENCIES_S ++ joinComma (st2.custom_ctors.map (fun p => p.2)) ++ DEPENDENDIES_E
      .ok (deps ++ clean (flatten toks))

/-! ## String utilities used by `SerializedBlockInfo` and the decoder -/

/-- JS `String.prototype.indexOf` for a single character
(`none` models `-1`). -/
def idxOf : Str → Char → Option Nat
  | [], _ => none
  | c0 :: rest, c => if c0 = c then some 0 else (idxOf rest c).map (· + 1)

/-- JS `String.prototype.lastIndexOf` for a single character. -/
def lastIdxOf (s : Str) (c : Char) : Option Nat :=
  match idxOf s.reverse c with
  | none => none
  | some i => some (s.length - 1 - i)

/-- JS `String.prototype.indexOf` for a substring pattern. -/
def idxOfSub : Str → Str → Option Nat
  | [], pat => if pat = [] then some 0 else none
  | c :: rest, pat =>
    if pat.isPrefixOf (c :: rest) then some 0
    else (idxOfSub rest pat).map (· + 1)

/-- JS `String.prototype.slice` with non-negative bounds. -/
def slicePos (s : Str) (a b : Nat) : Str := (s.drop a).take (b - a)

/-! ## `SerializedBlockInfo` -/

inductive DesErr where
  | outOfFuel : DesErr
  | noDefaultSingleton : DesErr
  | dependencyMissing : DesErr
  | expectedValue : DesErr
  | unknownType : DesErr
  | unboundReference (id : Nat) : DesErr
  | refDigitsMissing : DesErr
  | descriptorOmitted : DesErr
  | descriptorPrecision : DesErr
  | customRefNaN : DesErr
  | functionsDisabled : DesErr
  | invalidBoolean : DesErr
  | invalidBigInt : DesErr
  | entriesLackBrackets : DesErr
  | nonPairEntry : DesErr
  | descriptorUninferrable : DesErr
  | depsUnbalanced : DesErr
  | duplicateDependency : DesErr
  | dependencyNotProvided : DesErr
  | nonEntriedHolder : DesErr
deriving DecidableEq, Repr

/-- `SerializedBlockInfo.removeKeyBrackets`: only strips when the first
`[` is at index 0; the slice runs to the last `]` (JS `slice(1, -1)`
when there is none). -/
def removeKeyBrackets (s : Str) : Str :=
  match idxOf s '[' with
  | some 0 =>
    match lastIdxOf s ']' with
    | some e => slicePos s 1 e
    | none => (s.drop 1).dropLast
  | _ => s

/-- `SerializedBlockInfo.removeReferenceDeclaration`: strips a leading
`@…=` prefix (everything up to and including the first `=`), only when
the `@` is at index 0 and an `=` exists. -/
def removeReferenceDeclaration (s : Str) : Str :=
  if idxOf s '@' = some 0 then
    match idxOf s '=' with
    | none => s
    | some e => s.drop (e + 1)
  else s

def headIsDigit (s : Str) : Bool :=
  match s with
  | c :: _ => c.isDigit
  | [] => false

/-- First match of the regex `(^|[@#])(\d+)`: the leftmost maximal digit
run that starts the string or directly follows an `@` or `#`. -/
def findRefDigitsAux : Str → Option Str
  | [] => none
  | c :: rest =>
    if (c = '@' ∨ c = '#') ∧ headIsDigit rest then some (rest.takeWhile Char.isDigit)
    else findRefDigitsAux rest

def findRefDigits (s : Str) : Option Str :=
  if headIsDigit s then some (s.takeWhile Char.isDigit) else findRefDigitsAux s

/-- First match of the regex `%(\d+)`: the leftmost `%` directly
followed by at least one digit, yielding the maximal digit run. -/
def findPercentDigits : Str → Option Str
  | [] => none
  | c :: rest =>
    if c = '%' then
      let ds := rest.takeWhile Char.isDigit
      if ds = [] then findPercentDigits rest else some ds
    else findPercentDigits rest

inductive RefAction where
  | get : RefAction
  | set : RefAction
deriving DecidableEq, Repr

/-- `SerializedBlockInfo.extractReference`: reference details apply only
when (after key-bracket stripping) the block starts with `#` or `@`; the
id digits are the first `(^|[@#])(\d+)` match; a digit run can never be
NaN, so the `Number.isNaN` throw is unreachable. -/
def extractReference (s0 : Str) : Except DesErr (Option (RefAction × Nat)) :=
  let s := removeKeyBrackets s0
  if idxOf s '#' ≠ some 0 ∧ idxOf s '@' ≠ some 0 then .ok none
  else
    match findRefDigits s with
    | none => .error .refDigitsMissing
    | some ds => .ok (some (if idxOf s '#' = some 0 then .get else .set, digitsVal ds))

/-- `SerializedBlockInfo.extractDescriptorInfo`: only key-index blocks
carry a property-descriptor flag; a missing `%<digits>` is a decode
error; `Bitflag`'s `to32bit` rejects values of 2^31 and above. -/
def extractDescriptorInfo (s : Str) : Except DesErr (Option Nat) :=
  if s.head? = some '[' then
    match findPercentDigits s with
    | none => .error .descriptorOmitted
    | some ds =>
      if digitsVal ds < 2 ^ 31 then .ok (some (digitsVal ds))
      else .error .descriptorPrecision
  else .ok none

/-- `SerializedBlockInfo.extractType`: the characters before the first
`|` (after stripping key brackets and a reference declaration); the
whole remainder when there is no `|`. -/
def extractTypeStr (s0 : Str) : Str :=
  let s := removeReferenceDeclaration (removeKeyBrackets s0)
  match idxOf s '|' with
  | none => s
  | some i => s.take i

/-- `SerializedBlockInfo.extractSerializedValue`: the payload after the
first `|`, or `null` for singleton-style blocks without one. -/
def extractSerializedValue (s0 : Str) : Option Str :=
  let s := removeReferenceDeclaration (removeKeyBrackets s0)
  match idxOf s '|' with
  | none => none
  | some i => some (s.drop (i + 1))

/-- `Type.SINGLETONS` membership (`'10'` and `'0'` as enum strings). -/
def isSingletonType (t : Str) : Bool := t = ['1', '0'] || t = ['0']

/-- `Type.ENTRIED` membership (`'3'`, `'4'`, `'5'`, `'6'`). -/
def isEntriedType (t : Str) : Bool :=
  t = ['3'] || t = ['4'] || t = ['5'] || t = ['6']

/-- `Type.isCustom`: the enscribed type starts with `$`. -/
def isCustomType (t : Str) : Bool := t.head? = some '$'

/-- `Type.getCustomTypeReference`: `Number` of the digits after `$`
(`Number("")` is `0`; non-numeric text is a fatal error). -/
def customTypeReference (t : Str) : Except DesErr Nat :=
  let ds := t.drop 1
  if ds.all Char.isDigit then .ok (digitsVal ds) else .error .customRefNaN

structure BlockInfo where
  reference : Option (RefAction × Nat)
  descriptor : Option Nat
  typeStr : Str
  isKeyIdx : Bool
  serializedValue : Option Str
deriving DecidableEq, Repr

/-- The `SerializedBlockInfo` constructor (the `accessability` field is
hard-coded `null` in the source — a TODO — and therefore not modelled as
data). -/
def mkBlockInfo (s : Str) : Except DesErr BlockInfo := do
  let r ← extractReference s
  let d ← extractDescriptorInfo s
  .ok ⟨r, d, extractTypeStr s, s.head? = some '[', extractSerializedValue s⟩

/-! ## `Deserializer.extractEntries` -/

/-- `flush1`: moves a non-empty character buffer into the pair buffer. -/
def flush1 (b1 : Str) (b2 : List Str) : Str × List Str :=
  if b1 ≠ [] then ([], b2 ++ [b1]) else (b1, b2)

/-- `flush2`: emits the pair buffer; empty is a no-op, any length other
than 2 is a decode error (the element-is-string check always passes in
the model, where fragments are strings by construction). -/
def flush2 (b2 : List Str) (out : List (Str × Str)) :
    Except DesErr (List Str × List (Str × Str)) :=
  match b2 with
  | [] => .ok ([], out)
  | [k, v] => .ok ([], out ++ [(k, v)])
  | _ => .error .nonPairEntry

/-- One character of the `extractEntries` scan: braces adjust the depth
and are kept; `:` and `,` flush only at depth 0; everything else is
accumulated verbatim. -/
def entStep (acc : Except DesErr (Str × List Str × List (Str × Str) × Int)) (c : Char) :
    Except DesErr (Str × List Str × List (Str × Str) × Int) :=
  match acc with
  | .error e => .error e
  | .ok (b1, b2, out, depth) =>
    if c = '\x7b' ∨ c = '\x7d' then
      .ok (b1 ++ [c], b2, out, depth + (if c = '\x7b' then 1 else -1))
    else if c = ':' then
      if depth = 0 then
        let f := flush1 b1 b2
        .ok (f.1, f.2, out, depth)
      else .ok (b1 ++ [c], b2, out, depth)
    else if c = ',' then
      if depth = 0 then
        let f := flush1 b1 b2
        match flush2 f.2 out with
        | .error e => .error e
        | .ok (b2a, outa) => .ok (f.1, b2a, outa, depth)
      else .ok (b1 ++ [c], b2, out, depth)
    else .ok (b1 ++ [c], b2, out, depth)

/-- `Deserializer.extractEntries`.  `str` is `indexOf('{') + 1`, so the
source's `str === -1` test can never fire; a missing `}` is the decode
error.  The final `output.some(entry => entry.length !== 2)` check is
vacuous in the model, where emitted entries are pairs by construction. -/
def extractEntries (s : Str) : Except DesErr (List (Str × Str)) :=
  let strIdx : Nat :=
    match idxOf s '\x7b' with
    | some i => i + 1
    | none => 0
  match lastIdxOf s '\x7d' with
  | none => .error .entriesLackBrackets
  | some e =>
    let interior := slicePos s strIdx e
    match interior.foldl entStep (.ok ([], [], [], 0)) with
    | .error err => .error err
    | .ok (b1, b2, out, _) =>
      let f := flush1 b1 b2
      match flush2 f.2 out with
      | .error err => .error err
      | .ok (_, outF) => .ok outF

/-- Depth scan of an entry fragment, for stating what `extractEntries`
does: braces adjust the depth; a `:` or `,` at depth 0, or a dip below
depth 0, disqualifies the fragment; the final depth is returned. -/
def fragScan : Str → Nat → Option Nat
  | [], d => some d
  | c :: rest, d =>
    if c = '\x7b' then fragScan rest (d + 1)
    else if c = '\x7d' then (if d = 0 then none else fragScan rest (d - 1))
    else if (c = ':' ∨ c = ',') ∧ d = 0 then none
    else fragScan rest d

/-- A self-contained entry fragment: balanced braces, never dipping
below depth 0, with no top-level `:` or `,`. -/
def fragOk (f : Str) : Bool := fragScan f 0 = some 0

/-- The body text of an entries block: `key:value` fragments joined by
`,`. -/
def joinPairs : List (Str × Str) → Str
  | [] => []
  | [(k, v)] => k ++ ':' :: v
  | (k, v) :: rest => k ++ ':' :: v ++ ',' :: joinPairs rest

/-! ## Deserializer state and helpers -/

structure DState where
  dependencies : List (Nat × (Nat × Str))
  references : List (Nat × JSValue)
  ticks : Nat
  heap : List ObjData
deriving DecidableEq, Repr

def freshDState : DState := ⟨[], [], 0, []⟩

def assocFind {α : Type} : List (Nat × α) → Nat → Option α
  | [], _ => none
  | (k, v) :: rest, n => if k = n then some v else assocFind rest n

def assocSet {α : Type} : List (Nat × α) → Nat → α → List (Nat × α)
  | [], n, v => [(n, v)]
  | (k, w) :: rest, n, v =>
    if k = n then (n, v) :: rest else (k, w) :: assocSet rest n v

/-- `Deserializer.getReference` (the decoder always calls it with the
already-parsed numeric id, so only the numeric path is live): a decode
error when the id has not been bound. -/
def getReference (st : DState) (id : Nat) : Except DesErr JSValue :=
  match assocFind st.references id with
  | none => .error (.unboundReference id)
  | some v => .ok v

/-- `Deserializer.setReference`: binds, silently overwriting. -/
def setReference (st : DState) (id : Nat) (v : JSValue) : DState :=
  { st with references := assocSet st.references id v }

/-- `Deserializer.emptyEntriesHolder`. -/
def emptyEntriesHolder (t : Str) : Except DesErr ObjKind :=
  if ¬ isEntriedType t then .error .nonEntriedHolder
  else if t = ['3'] then .ok .object
  else if t = ['4'] then .ok .array
  else if t = ['6'] then .ok .setObj
  else if t = ['5'] then .ok .mapObj
  else .error .nonEntriedHolder

/-- Allocates a fresh holder on the decoder heap. -/
def allocObj (st : DState) (k : ObjKind) : JSValue × DState :=
  (.vobj st.heap.length, { st with heap := st.heap ++ [ObjData.empty k] })

def heapModify (st : DState) (a : Nat) (f : ObjData → ObjData) : DState :=
  match st.heap[a]? with
  | some d => { st with heap := st.heap.set a (f d) }
  | none => st

/-- JS coercion of a decoded key to a property key string.  Decoded keys
are strings in every reachable case; the remaining cases model
`String(k)` loosely and are unused by the theorems. -/
def jsPropKey : JSValue → Str
  | .vstr s => s
  | .vnull => ['n', 'u', 'l', 'l']
  | .vundef => ['u', 'n', 'd', 'e', 'f', 'i', 'n', 'e', 'd']
  | .vbool b => if b then ['t', 'r', 'u', 'e'] else ['f', 'a', 'l', 's', 'e']
  | .vnum n =>
    match n with
    | .fin _ 0 => ['0']
    | _ => serializeNumberWith natDigits n
  | .vbig i => intDigits i
  | .vsym _ => []
  | .vfn _ src => src
  | .vobj _ => ['o', 'b', 'j', 'e', 'c', 't']

/-- Plain assignment `into[k] = v`: updates the value of an existing
property keeping its flags, or creates a configurable, enumerable,
writable one (flag int 28). -/
def propsAssign : List (Str × JSValue × Nat) → Str → JSValue → List (Str × JSValue × Nat)
  | [], k, v => [(k, v, 28)]
  | (k0, v0, f0) :: rest, k, v =>
    if k0 = k then (k0, v, f0) :: rest else (k0, v0, f0) :: propsAssign rest k v

/-- `Deserializer.applyPropertyDescriptorFlags`: `defineProperty` with
the configurable / enumerable / writable booleans taken from the
bitflag (so the property's flags become the flag's bits masked to 28;
accessor and metadata bits are TODOs in the source). -/
def propsDefineFlags : List (Str × JSValue × Nat) → Str → Nat → List (Str × JSValue × Nat)
  | [], _, _ => []
  | (k0, v0, f0) :: rest, k, flags =>
    if k0 = k then (k0, v0, flags &&& 28) :: rest
    else (k0, v0, f0) :: propsDefineFlags rest k flags

/-- `flags.has(f)` for a single power-of-two flag. -/
def hasFlag (flags bit : Nat) : Bool := flags &&& bit = bit

/-- `Deserializer.applyObjectAccessabilityFlags`, with the
`ObjectAccessabilityFlag` values from the source
(`IS_FROZEN = 1 << 0 = 1`, `IS_SEALED = 2 << 0 = 2`,
`NON_EXTENSIBLE = 2 << 1 = 4`), applied in source order: seal, freeze,
prevent extensions.  The host's `Object.seal`/`Object.freeze` also make
the object non-extensible, and freezing seals it. -/
def applyObjectAccessabilityFlags (d : ObjData) (flags : Nat) : ObjData :=
  let d1 := if hasFlag flags 2 then { d with isSealed := true, isExtensible := false } else d
  let d2 :=
    if hasFlag flags 1 then { d1 with isFrozen := true, isSealed := true, isExtensible := false }
    else d1
  if hasFlag flags 4 then { d2 with isExtensible := false } else d2

/-- JS `Map.prototype.set`: SameValueZero key update-or-append. -/
def mapSet : List (JSValue × JSValue) → JSValue → JSValue → List (JSValue × JSValue)
  | [], k, v => [(k, v)]
  | (k0, v0) :: rest, k, v =>
    if sameValueZero k0 k then (k0, v) :: rest else (k0, v0) :: mapSet rest k v

/-- JS `Set.prototype.add`: SameValueZero de-duplicating append. -/
def setAdd (l : List JSValue) (v : JSValue) : List JSValue :=
  if l.any (fun w => sameValueZero w v) then l else l ++ [v]

/-- `Deserializer.deserializeBoolean`: `SerializedBoolean.TRUE = 'T'`,
`FALSE = 'F'` (modelled from the spec, §4.8: booleans serialize to
`8|T` / `8|F`; `src/internal/shared/serialized-boolean.ts` is not among
the provided sources). -/
def deserializeBoolean (s : Str) : Except DesErr Bool :=
  if s = ['T'] then .ok true
  else if s = ['F'] then .ok false
  else .error .invalidBoolean

/-- `BigInt(s)`: decimal parse; `BigInt("")` is `0n`; a malformed string
is a host error. -/
def parseBigInt (s : Str) : Except DesErr Int :=
  match s with
  | '-' :: ds =>
    if ds ≠ [] ∧ ds.all Char.isDigit then .ok (-(digitsVal ds : Int))
    else .error .invalidBigInt
  | ds =>
    if ds.all Char.isDigit then .ok (digitsVal ds) else .error .invalidBigInt

/-- `Deserializer.deserializeFunction`: gated by the configuration; when
the payload contains `~`, `split('~')` yields the name and the source
(the second segment); `eval` re-creates the function from the unescaped
source and `defineProperty` installs the name.  A function value is
modelled by its name and source text. -/
def deserializeFunction (cfg : SharedConfig) (inner : Str) (name : Option JSValue) :
    Except DesErr JSValue :=
  if ¬ cfg.Functions then .error .functionsDisabled
  else if '~' ∈ inner then
    let parts := inner.splitOn '~'
    .ok (.vfn (parts.headD []) (unescape ((parts.drop 1).headD [])))
  else
    .ok (.vfn (match name with | some k => jsPropKey k | none => []) (unescape inner))

/-- `Deserializer.setupDependencies`: locates the `![` … `]!` prelude,
unescapes and registers each comma-separated name against the provided
constructor list (by name), rejecting duplicates (a name whose
`lastIndexOf` differs from its index has a later duplicate) and missing
constructors; returns the input after the prelude. -/
def registerDeps (provided : List (Nat × Str)) :
    List Str → Nat → Except DesErr (List (Nat × (Nat × Str)))
  | [], _ => .ok []
  | dep :: rest, i =>
    if dep ∈ rest then .error .duplicateDependency
    else
      match provided.find? (fun p => p.2 = dep) with
      | none => .error .dependencyNotProvided
      | some ctor =>
        match registerDeps provided rest (i + 1) with
        | .error e => .error e
        | .ok tail => .ok ((i, ctor) :: tail)

def setupDependencies (st : DState) (s : Str) (provided : List (Nat × Str)) :
    Except DesErr (Str × DState) :=
  match idxOfSub s DEPENDENCIES_S, idxOfSub s DEPENDENDIES_E with
  | none, none => .ok (s, st)
  | none, some _ => .error .depsUnbalanced
  | some _, none => .error .depsUnbalanced
  | some a, some e =>
    let reqs := ((slicePos s (a + 2) e).splitOn ',').map unescape
    match registerDeps provided reqs 0 with
    | .error err => .error err
    | .ok regs =>
      let st2 := { st with
        dependencies := regs.foldl (fun m p => assocSet m p.1 p.2) st.dependencies }
      .ok (s.drop (e + 2), st2)

/-! ## The decoder

`deserializeStep` merges the mutually recursive private methods of
`Deserializer` into one fuel-indexed function: `.block` is
`#deserialize`, `.entried` is `deserializeEntried` (entry extraction),
`.entryList` its per-entry loop. -/

inductive DCmd where
  | block (s : Str) (name : Option JSValue) : DCmd
  | entried (inner : Str) (t : Str) (addr : Nat) : DCmd
  | entryList (es : List (Str × Str)) (t : Str) (addr : Nat) : DCmd

def deserializeStep (cfg : SharedConfig) :
    Nat → DCmd → DState → Except DesErr (JSValue × DState)
  | 0, _, _ => .error .outOfFuel
  | fuel + 1, .block s name, st0 =>
    let st := { st0 with ticks := st0.ticks + 1 }
    match mkBlockInfo s with
    | .error e => .error e
    | .ok info =>
      if isSingletonType info.typeStr then
        if info.typeStr = ['1', '0'] then .ok (.vundef, st)
        else if info.typeStr = ['0'] then .ok (.vnull, st)
        else .error .noDefaultSingleton
      else
        -- eager holder allocation (cycle support): skipped for a pure
        -- reference-get; `let value: any` is `undefined` otherwise
        let holderRes : Except DesErr (JSValue × DState) :=
          if info.reference.map Prod.fst ≠ some RefAction.get ∧
              (isEntriedType info.typeStr ∨ isCustomType info.typeStr) then
            if isCustomType info.typeStr then
              match customTypeReference info.typeStr with
              | .error e => .error e
              | .ok cid =>
                match assocFind st.dependencies cid with
                | none => .error .dependencyMissing
                | some ctor => .ok (allocObj st (.custom ctor.1 ctor.2))
            else
              match emptyEntriesHolder info.typeStr with
              | .error e => .error e
              | .ok k => .ok (allocObj st k)
          else .ok (.vundef, st)
        match holderRes with
        | .error e => .error e
        | .ok (value0, st1) =>
          match info.reference with
          | some (.get, id) =>
            match getReference st1 id with
            | .error e => .error e
            | .ok v => .ok (v, st1)
          | refRest =>
            let st2 :=
              match refRest with
              | some (_, id) => setReference st1 id value0
              | none => st1
            match info.serializedValue with
            | none => .error .expectedValue
            | some inner =>
              let valRes : Except DesErr (JSValue × DState) :=
                if isCustomType info.typeStr ∨ isEntriedType info.typeStr then
                  match value0 with
                  | .vobj a =>
                    match deserializeStep cfg fuel (.entried inner info.typeStr a) st2 with
                    | .error e => .error e
                    | .ok (_, st3) => .ok (value0, st3)
                  | _ => .error .nonEntriedHolder
                else if info.typeStr = ['9'] then
                  match deserializeFunction cfg inner name with
                  | .error e => .error e
                  | .ok v => .ok (v, st2)
                else if info.typeStr = ['8'] then
                  match deserializeBoolean inner with
                  | .error e => .error e
                  | .ok b => .ok (.vbool b, st2)
                else if info.typeStr = ['2'] then .ok (.vnum (deserializeNumber inner), st2)
                else if info.typeStr = ['1'] then .ok (.vstr (unescape inner), st2)
                else if info.typeStr = ['1', '1'] then
                  match parseBigInt inner with
                  | .error e => .error e
                  | .ok i => .ok (.vbig i, st2)
                else if info.typeStr = ['1', '2'] then .ok (allocObj st2 (.dateObj (unescape inner)))
                else .error .unknownType
              match valRes with
              | .error e => .error e
              | .ok (value, st3) =>
                let st4 :=
                  match info.reference with
                  | some (_, id) => setReference st3 id value
                  | none => st3
                .ok (value, st4)
  | fuel + 1, .entried inner t addr, st =>
    match extractEntries inner with
    | .error e => .error e
    | .ok es => deserializeStep cfg fuel (.entryList es t addr) st
  | fuel + 1, .entryList es t addr, st =>
    match es with
    | [] => .ok (.vobj addr, st)
    | (key, val) :: rest =>
      match mkBlockInfo key with
      | .error e => .error e
      | .ok kinfo =>
        match kinfo.descriptor with
        | none => .error .descriptorUninferrable
        | some flags =>
          match deserializeStep cfg fuel (.block key none) st with
          | .error e => .error e
          | .ok (k, st1) =>
            match deserializeStep cfg fuel (.block val (some k)) st1 with
            | .error e => .error e
            | .ok (v, st2) =>
              let st3 :=
                if isCustomType t then
                  heapModify st2 addr fun d => { d with props := propsAssign d.props (jsPropKey k) v }
                else st2
              let st4 :=
                if t = ['5'] then
                  heapModify st3 addr fun d => { d with mapEntries := mapSet d.mapEntries k v }
                else st3
              let st5 :=
                if t = ['6'] then
                  heapModify st4 addr fun d => { d with setElems := setAdd d.setElems v }
                else st4
              let st6 :=
                if t = ['4'] ∨ t = ['3'] then
                  heapModify st5 addr fun d =>
                    { d with props :=
                        propsDefineFlags (propsAssign d.props (jsPropKey k) v) (jsPropKey k) flags }
                else st5
              deserializeStep cfg fuel (.entryList rest t addr) st6

/-- `Deserializer.deserialize`: strip and register the dependency
prelude, then decode recursively.  The reference and dependency tables
of `st` are carried over from any previous call on the same instance —
the class never resets them. -/
def deserializeTop (cfg : SharedConfig) (fuel : Nat) (st : DState) (s : Str)
    (provided : List (Nat × Str)) : Except DesErr (JSValue × DState) :=
  match setupDependencies st s provided with
  | .error e => .error e
  | .ok (s2, st1) => deserializeStep cfg fuel (.block s2 none) st1

end Serime

namespace Serime

/-! ## Digit lemmas -/

theorem digitChar_isDigit {d : Nat} (h : d < 10) : (digitChar d).isDigit = true := by
  interval_cases d <;> decide

theorem digitVal_digitChar {d : Nat} (h : d < 10) : digitVal (digitChar d) = d := by
  interval_cases d <;> decide

theorem natDigitsAux_ne_nil {fuel n : Nat} (h : 0 < fuel) : natDigitsAux fuel n ≠ [] := by
  cases fuel with
  | zero => omega
  | succ f =>
    simp only [natDigitsAux]
    split <;> simp

theorem natDigits_ne_nil (n : Nat) : natDigits n ≠ [] :=
  natDigitsAux_ne_nil (by omega)

theorem natDigitsAux_all_digits {fuel n : Nat} :
    ∀ c ∈ natDigitsAux fuel n, c.isDigit = true := by
  induction fuel generalizing n with
  | zero => simp [natDigitsAux]
  | succ f ih =>
    intro c hc
    simp only [natDigitsAux] at hc
    split at hc
    · simp only [List.mem_singleton] at hc
      subst hc; exact digitChar_isDigit (by omega)
    · rcases List.mem_append.1 hc with h | h
      · exact ih c h
      · simp only [List.mem_singleton] at h
        subst h; exact digitChar_isDigit (Nat.mod_lt _ (by omega))

theorem natDigits_all_digits (n : Nat) : ∀ c ∈ natDigits n, c.isDigit = true :=
  natDigitsAux_all_digits

theorem digitsVal_append_singleton (s : Str) (c : Char) :
    digitsVal (s ++ [c]) = digitsVal s * 10 + digitVal c := by
  simp [digitsVal, List.foldl_append]

theorem digitsVal_natDigitsAux {fuel n : Nat} (h : n < fuel) :
    digitsVal (natDigitsAux fuel n) = n := by
  induction fuel using Nat.strong_induction_on generalizing n with
  | _ fuel ih =>
    match fuel with
    | 0 => omega
    | f + 1 =>
      simp only [natDigitsAux]
      split
      · rename_i hlt
        simp [digitsVal, digitVal_digitChar hlt]
      · rename_i hge
        push_neg at hge
        have hdiv : n / 10 < f := by
          have h1 : n / 10 < n := Nat.div_lt_self (by omega) (by omega)
          have h2 : n / 10 * 10 ≤ n := Nat.div_mul_le_self n 10
          omega
        rw [digitsVal_append_singleton, ih f (by omega) hdiv,
          digitVal_digitChar (Nat.mod_lt _ (by omega))]
        omega

theorem digitsVal_natDigits (n : Nat) : digitsVal (natDigits n) = n :=
  digitsVal_natDigitsAux (by omega)

theorem natDigits_injective : Function.Injective natDigits := by
  intro a b h
  have := digitsVal_natDigits a
  rw [h, digitsVal_natDigits] at this
  omega

/-! ## Escape-codec lemmas (claim C3) -/

theorem isReserved_mem {c : Char} (h : isReserved c = true) :
    c ∈ RESERVED_CHARACTERS := by
  simpa [isReserved] using h

theorem reserved_code_lt {c : Char} (h : isReserved c = true) : c.toNat < 65536 := by
  have hm := isReserved_mem h
  fin_cases hm <;> decide

theorem jsFromCharCode_reserved {c : Char} (h : isReserved c = true) :
    jsFromCharCode c.toNat = c := by
  have hm := isReserved_mem h
  fin_cases hm <;> decide

theorem not_reserved_ne_amp {c : Char} (h : isReserved c = false) : c ≠ '&' := by
  intro hc; subst hc; simp [isReserved, RESERVED_CHARACTERS] at h

theorem unescapeAux_digit_run (digits : Str) (hd : ∀ c ∈ digits, c.isDigit = true) :
    ∀ (ds rest : Str),
      unescapeAux (some ds) (digits ++ rest) = unescapeAux (some (ds ++ digits)) rest := by
  induction digits with
  | nil => intro ds rest; simp
  | cons d tail ih =>
    intro ds rest
    have hdd : d.isDigit = true := hd d (by simp)
    have htl : ∀ c ∈ tail, c.isDigit = true := fun c hc => hd c (by simp [hc])
    simp only [List.cons_append, unescapeAux, hdd, if_pos, List.append_eq]
    rw [ih htl (ds ++ [d]) rest]
    simp

theorem onlyEscapedAux_digit_run (digits : Str) (hd : ∀ c ∈ digits, c.isDigit = true) :
    ∀ (ds rest : Str),
      onlyEscapedAux (some ds) (digits ++ rest) = onlyEscapedAux (some (ds ++ digits)) rest := by
  induction digits with
  | nil => intro ds rest; simp
  | cons d tail ih =>
    intro ds rest
    have hdd : d.isDigit = true := hd d (by simp)
    have htl : ∀ c ∈ tail, c.isDigit = true := fun c hc => hd c (by simp [hc])
    simp only [List.cons_append, onlyEscapedAux, hdd, if_pos, List.append_eq]
    rw [ih htl (ds ++ [d]) rest]
    simp

theorem unescape_escape (s : Str) : unescape (escape s) = s := by
  unfold unescape
  induction s with
  | nil => rfl
  | cons c rest ih =>
    show unescapeAux none (escape (c :: rest)) = c :: rest
    have hesc : escape (c :: rest)
        = (if isReserved c then escapeChar c else [c]) ++ escape rest := by
      simp [escape]
    rw [hesc]
    by_cases hres : isReserved c = true
    · rw [if_pos hres]
      have hdig := natDigits_all_digits c.toNat
      simp only [escapeChar, List.cons_append, List.append_assoc]
      show unescapeAux none ('&' :: (natDigits c.toNat ++ ([';'] ++ escape rest))) = c :: rest
      have h1 : unescapeAux none ('&' :: (natDigits c.toNat ++ ([';'] ++ escape rest)))
          = unescapeAux (some []) (natDigits c.toNat ++ ([';'] ++ escape rest)) := by
        simp [unescapeAux]
      rw [h1, unescapeAux_digit_run _ hdig, List.nil_append]
      have hsemi : (';' : Char).isDigit = false := by decide
      show unescapeAux (some (natDigits c.toNat)) (';' :: escape rest) = c :: rest
      rw [show unescapeAux (some (natDigits c.toNat)) (';' :: escape rest)
          = jsFromCharCode (digitsVal (natDigits c.toNat)) :: unescapeAux none (escape rest) by
        simp [unescapeAux, hsemi, natDigits_ne_nil c.toNat]]
      rw [digitsVal_natDigits, jsFromCharCode_reserved hres, ih]
    · have hres2 : isReserved c = false := by simpa using hres
      rw [if_neg (by simp [hres2])]
      have hne : c ≠ '&' := not_reserved_ne_amp hres2
      simp only [List.singleton_append, unescapeAux, if_neg hne, List.append_eq,
        List.nil_append]
      rw [ih]

theorem onlyEscapedReserved_escape (s : Str) : onlyEscapedReserved (escape s) = true := by
  unfold onlyEscapedReserved
  induction s with
  | nil => rfl
  | cons c rest ih =>
    have hesc : escape (c :: rest)
        = (if isReserved c then escapeChar c else [c]) ++ escape rest := by
      simp [escape]
    rw [hesc]
    by_cases hres : isReserved c = true
    · rw [if_pos hres]
      have hdig := natDigits_all_digits c.toNat
      simp only [escapeChar, List.cons_append, List.append_assoc]
      show onlyEscapedAux none ('&' :: (natDigits c.toNat ++ ([';'] ++ escape rest))) = true
      have h1 : onlyEscapedAux none ('&' :: (natDigits c.toNat ++ ([';'] ++ escape rest)))
          = onlyEscapedAux (some []) (natDigits c.toNat ++ ([';'] ++ escape rest)) := by
        simp [onlyEscapedAux]
      rw [h1, onlyEscapedAux_digit_run _ hdig, List.nil_append]
      have hsemi : (';' : Char).isDigit = false := by decide
      show onlyEscapedAux (some (natDigits c.toNat)) (';' :: escape rest) = true
      simp only [onlyEscapedAux, hsemi, Bool.false_eq_true, if_false, if_pos rfl]
      simp [natDigits_ne_nil c.toNat, ih]
    · have hres2 : isReserved c = false := by simpa using hres
      rw [if_neg (by simp [hres2])]
      have hne : c ≠ '&' := not_reserved_ne_amp hres2
      simp only [List.singleton_append, onlyEscapedAux, if_neg hne, hres2,
        Bool.false_eq_true, if_false, List.append_eq, List.nil_append]
      exact ih

/-- **C3.** For every Unicode string `s`, `unescape(escape(s)) = s`, and
`escape(s)` contains no occurrence of any reserved character
(`& ; ! @ # % [ ] { } | , = $ : ~`) except as part of an
`&<decimal charcode>;` escape sequence. -/
theorem c3_escape_roundtrip_and_clean (s : Str) :
    unescape (escape s) = s ∧ onlyEscapedReserved (escape s) = true :=
  ⟨unescape_escape s, onlyEscapedReserved_escape s⟩

/-! ## Number round-trip (claim C9) -/

theorem deserializeNumberWith_roundtrip {M : Type} (mts : M → Str)
    (parse : Str → JSNum M) (n : JSNum M)
    (hinf : parse infinityChars = .inf false)
    (hfin : ∀ b m, n = JSNum.fin b m →
      parse (mts m) = .fin false m ∧ (mts m).head? ≠ some '-' ∧
      mts m ≠ nanChars ∧ mts m ≠ infinityChars) :
    deserializeNumberWith parse (serializeNumberWith mts n) = n := by
  cases n with
  | nan => simp [serializeNumberWith, deserializeNumberWith]
  | inf neg =>
    cases neg with
    | false =>
      rw [show serializeNumberWith mts (JSNum.inf false) = infinityChars from rfl,
        deserializeNumberWith, if_neg (by decide), if_neg (by decide), hinf]
    | true =>
      rw [show serializeNumberWith mts (JSNum.inf true) = '-' :: infinityChars from rfl,
        deserializeNumberWith, if_neg (by decide), if_pos (by decide)]
      simp [hinf, jsNegateNum]
  | fin neg m =>
    obtain ⟨h1, h2, h3, h4⟩ := hfin neg m rfl
    cases neg with
    | false =>
      rw [show serializeNumberWith mts (JSNum.fin false m) = mts m from rfl,
        deserializeNumberWith, if_neg h3, if_neg h2, h1]
    | true =>
      have hnan : ('-' :: mts m) ≠ nanChars := by
        intro h; rw [show nanChars = 'N' :: ['a', 'N'] from rfl] at h
        exact absurd (List.head_eq_of_cons_eq h) (by decide)
      rw [show serializeNumberWith mts (JSNum.fin true m) = '-' :: mts m from rfl,
        deserializeNumberWith, if_neg hnan, if_pos (by simp)]
      simp [h1, jsNegateNum]

theorem natDigits_ne_nanChars (m : Nat) : natDigits m ≠ nanChars := by
  intro h
  have := natDigits_all_digits m
  rw [h] at this
  exact absurd (this 'N' (by decide)) (by decide)

theorem natDigits_ne_infinityChars (m : Nat) : natDigits m ≠ infinityChars := by
  intro h
  have := natDigits_all_digits m
  rw [h] at this
  exact absurd (this 'I' (by decide)) (by decide)

theorem natDigits_head_ne_dash (m : Nat) : (natDigits m).head? ≠ some '-' := by
  intro h
  have hne := natDigits_ne_nil m
  have hmem : '-' ∈ natDigits m := by
    cases hd : natDigits m with
    | nil => exact absurd hd hne
    | cons c rest =>
      rw [hd] at h
      simp only [List.head?_cons, Option.some.injEq] at h
      subst h; simp [hd]
  exact absurd (natDigits_all_digits m '-' hmem) (by decide)

theorem numberFn_natDigits (m : Nat) : numberFn (natDigits m) = .fin false m := by
  unfold numberFn
  rw [if_neg (natDigits_ne_infinityChars m),
    if_pos ⟨natDigits_ne_nil m, by simpa [List.all_eq_true] using natDigits_all_digits m⟩,
    digitsVal_natDigits]

/-- **C9.** For every JavaScript number `n` — including `+0`, `-0`, NaN,
and the two infinities — decoding the encoded number payload preserves
the value up to `Object.is` (structural equality of `JSNum`, which keeps
the sign of zero and identifies NaN with itself).  First conjunct: for
any magnitude type whose host printer/parser satisfy the properties the
host guarantees (`Number(Math.abs(n).toString())` recovers `Math.abs(n)`
for finite `n`, and a finite magnitude never prints as `"NaN"`,
`"Infinity"`, or with a leading `-`).  Second conjunct: the pipeline
instance with natural-number magnitudes. -/
theorem c9_number_roundtrip :
    (∀ (M : Type) (mts : M → Str) (parse : Str → JSNum M) (n : JSNum M),
      parse infinityChars = .inf false →
      (∀ b m, n = JSNum.fin b m →
        parse (mts m) = .fin false m ∧ (mts m).head? ≠ some '-' ∧
        mts m ≠ nanChars ∧ mts m ≠ infinityChars) →
      deserializeNumberWith parse (serializeNumberWith mts n) = n) ∧
    (∀ n : JSNum Nat, deserializeNumber (serializeNumber n) = n) := by
  constructor
  · intro M mts parse n hinf hfin
    exact deserializeNumberWith_roundtrip mts parse n hinf hfin
  · intro n
    exact deserializeNumberWith_roundtrip natDigits numberFn n rfl
      (fun b m _ => ⟨numberFn_natDigits m, natDigits_head_ne_dash m,
        natDigits_ne_nanChars m, natDigits_ne_infinityChars m⟩)

/-- Witness for C9 at concrete inputs: `-0` (and, via the first
conjunct's pipeline instantiation, the hypotheses are discharged at the
concrete magnitude `0`). -/
theorem c9_number_roundtrip_witness :
    deserializeNumberWith numberFn (serializeNumberWith natDigits (JSNum.fin true 0))
      = JSNum.fin true 0 :=
  c9_number_roundtrip.1 Nat natDigits numberFn (JSNum.fin true 0) rfl
    (fun _ m _ => ⟨numberFn_natDigits m, natDigits_head_ne_dash m,
      natDigits_ne_nanChars m, natDigits_ne_infinityChars m⟩)

/-! ## The self-referential object (claim C2) -/

/-- The heap of `x = {}; x.self = x`: one object whose own property
`self` (configurable, enumerable, writable: flag int 28) holds the
object itself. -/
def selfRefHeap : Heap :=
  [⟨.object, [(['s', 'e', 'l', 'f'], .vobj 0, 28)], [], [], false, false, true⟩]

/-- The serialized form of the self-referential object:
`@0=3|{[1|self]%28:#0}`. -/
def selfRefOutput : Str :=
  '@' :: '0' :: '=' :: '3' :: '|' :: '\x7b' :: '[' :: '1' :: '|' ::
    's' :: 'e' :: 'l' :: 'f' :: ']' :: '%' :: '2' :: '8' :: ':' :: '#' :: '0' :: ['\x7d']

/-- **C2.** For the self-referential input `x = {}; x.self = x`, the
serialized output contains exactly one reference declaration `@0=` and
exactly one pointer `#0`, and the value obtained by deserializing that
output satisfies `y.self === y`: the decoded value is the address `0`,
and the decoded heap's object at address `0` holds `self ↦` that same
address (the holder is bound to its reference id before its entries are
decoded, which is what closes the cycle). -/
theorem c2_self_reference_cycle :
    serializeTop selfRefHeap DEFAULT_SHARED_CONFIGURATION 10 (.vobj 0) freshSState
      = .ok selfRefOutput
    ∧ declMatches selfRefOutput = [['0']]
    ∧ ptrMatches selfRefOutput = [['0']]
    ∧ deserializeTop DEFAULT_SHARED_CONFIGURATION 10 freshDState selfRefOutput []
      = .ok (.vobj 0,
          ⟨[], [(0, .vobj 0)], 3,
            [⟨.object, [(['s', 'e', 'l', 'f'], .vobj 0, 28)], [], [], false, false, true⟩]⟩)
    ∧ ((deserializeTop DEFAULT_SHARED_CONFIGURATION 10 freshDState selfRefOutput []).toOption.map
        (fun p =>
          match p.1 with
          | .vobj a =>
            ((p.2.heap[a]?).map fun d =>
              decide ((['s', 'e', 'l', 'f'], JSValue.vobj a, 28) ∈ d.props)).getD false
          | _ => false)
        = some true) :=
  ⟨rfl, rfl, rfl, rfl, rfl⟩

/-! ## Object-accessibility flags are never emitted nor applied
(claim C5) -/

/-- The heap of `x = Object.freeze({})`: one empty, frozen (hence sealed
and non-extensible) object. -/
def frozenEmptyHeap : Heap := [⟨.object, [], [], [], true, true, false⟩]

/-- **C5 (refutation of the claimed behavior).**  Encoding a frozen
empty object yields plain `3|{}` — no object-accessibility bitflag is
carried by the serialized form (the encoder's `objectAccessabilityFlag`
is never called) — and decoding it produces an ordinary extensible,
unsealed, unfrozen object: `deserializeEntried` never calls
`applyObjectAccessabilityFlags` (the source has only TODO comments where
the application should happen).  The last conjunct shows that the dead
helper, had it been called with the frozen|sealed bits (3), would have
produced the frozen object the claim describes. -/
theorem c5_accessibility_never_applied :
    serializeTop frozenEmptyHeap DEFAULT_SHARED_CONFIGURATION 10 (.vobj 0) freshSState
      = .ok ['3', '|', '\x7b', '\x7d']
    ∧ deserializeTop DEFAULT_SHARED_CONFIGURATION 10 freshDState ['3', '|', '\x7b', '\x7d'] []
      = .ok (.vobj 0, ⟨[], [], 1, [⟨.object, [], [], [], false, false, true⟩]⟩)
    ∧ (ObjData.empty .object).isFrozen = false
    ∧ (ObjData.empty .object).isSealed = false
    ∧ (ObjData.empty .object).isExtensible = true
    ∧ applyObjectAccessabilityFlags (ObjData.empty .object) 3
      = ⟨.object, [], [], [], true, true, false⟩ :=
  ⟨rfl, rfl, rfl, rfl, rfl, rfl⟩

/-! ## Per-call state isolation (claim C6) -/

/-- **C6 (counterexample).**  A `Deserializer` carries its reference
table across top-level calls: after decoding `@0=1|a`, a second
`deserialize` call on the very same instance, given the bare pointer
`#0`, succeeds and returns the previous call's value `"a"` — the claim
says such a call never resolves a pointer through a binding created
during a previous deserialize call. -/
theorem c6_counterexample_decoder_state_leaks :
    deserializeTop DEFAULT_SHARED_CONFIGURATION 10 freshDState
        ('@' :: '0' :: '=' :: '1' :: '|' :: ['a']) []
      = .ok (.vstr ['a'], ⟨[], [(0, .vstr ['a'])], 1, []⟩)
    ∧ deserializeTop DEFAULT_SHARED_CONFIGURATION 10 ⟨[], [(0, .vstr ['a'])], 1, []⟩
        ('#' :: ['0']) []
      = .ok (.vstr ['a'], ⟨[], [(0, .vstr ['a'])], 2, []⟩) :=
  ⟨rfl, rfl⟩

/-- **C6 (amended).**  The `Serializer` does start every top-level call
from a wiped state — `serialize` begins with `wipe()`, so its result is
independent of any state left by earlier calls and two calls with the
same arguments return the same result.  The `Deserializer`, however,
retains its reference (and dependency) tables across calls: a `#0`
pointer given to an instance that decoded `@0=1|a` earlier resolves
through the previous call's binding. -/
theorem c6_amended_serializer_wipes_decoder_retains :
    (∀ (heap : Heap) (cfg : SharedConfig) (fuel : Nat) (v : JSValue) (st1 st2 : SState),
      serializeTop heap cfg fuel v st1 = serializeTop heap cfg fuel v st2)
    ∧ deserializeTop DEFAULT_SHARED_CONFIGURATION 10 ⟨[], [(0, .vstr ['a'])], 1, []⟩
        ('#' :: ['0']) []
      = .ok (.vstr ['a'], ⟨[], [(0, .vstr ['a'])], 2, []⟩) :=
  ⟨fun _ _ _ _ _ _ => rfl, rfl⟩

/-! ## Scanner helper lemmas for variable digit payloads -/

theorem digitChar_mem_ne {c x : Char} (hc : c.isDigit = true) (hx : x.isDigit = false) :
    c ≠ x := by
  intro he; subst he; rw [hc] at hx; exact absurd hx (by simp)

theorem natDigits_mem_ne {n : Nat} {x : Char} (hx : x.isDigit = false) :
    ∀ c ∈ natDigits n, c ≠ x :=
  fun c hc => digitChar_mem_ne (natDigits_all_digits n c hc) hx

theorem takeWhile_all {p : Char → Bool} : ∀ {s : Str}, (∀ c ∈ s, p c = true) →
    s.takeWhile p = s := by
  intro s h
  induction s with
  | nil => rfl
  | cons c rest ih =>
    have h1 : p c = true := h c (by simp)
    simp [List.takeWhile_cons, h1, ih fun c2 hc => h c2 (by simp [hc])]

theorem declMatchesAux_none_of_no_at {s : Str} (h : ∀ c ∈ s, c ≠ '@') :
    declMatchesAux none s = [] := by
  induction s with
  | nil => rfl
  | cons c rest ih =>
    show declMatchesAux none (c :: rest) = []
    rw [show declMatchesAux none (c :: rest)
        = if c = '@' then declMatchesAux (some []) rest else declMatchesAux none rest from rfl,
      if_neg (h c (by simp))]
    exact ih fun c2 hc => h c2 (by simp [hc])

theorem ptrAt_false_of_ne {c : Char} (h : c ≠ '#') (rest ds : Str) :
    ptrAt (c :: rest) ds = false := by
  simp [ptrAt, h]

theorem hasPtrMatch_of_no_hash {ds : Str} : ∀ {s : Str}, (∀ c ∈ s, c ≠ '#') →
    hasPtrMatch s ds = false := by
  intro s h
  induction s with
  | nil => rfl
  | cons c rest ih =>
    show (ptrAt (c :: rest) ds || hasPtrMatch rest ds) = false
    rw [ptrAt_false_of_ne (h c (by simp)), ih fun c2 hc => h c2 (by simp [hc])]
    rfl

theorem idxOfSub_none_of_hd {p0 : Char} {ps : Str} : ∀ {s : Str}, (∀ c ∈ s, c ≠ p0) →
    idxOfSub s (p0 :: ps) = none := by
  intro s h
  induction s with
  | nil => simp [idxOfSub]
  | cons c rest ih =>
    have hb : (p0 :: ps).isPrefixOf (c :: rest) = false := by
      have : (p0 == c) = false := by
        simp only [beq_eq_false_iff_ne, ne_eq]
        exact fun he => h c (by simp) he.symm
      simp [List.isPrefixOf, this]
    rw [idxOfSub, if_neg (by simp [hb]), ih fun c2 hc => h c2 (by simp [hc])]
    rfl

theorem optionMap_succ_ne_some_zero (x : Option Nat) : x.map (· + 1) ≠ some 0 := by
  cases x <;> simp

theorem removeKeyBrackets_cons {c : Char} (h : c ≠ '[') (s : Str) :
    removeKeyBrackets (c :: s) = c :: s := by
  unfold removeKeyBrackets
  rw [show idxOf (c :: s) '[' = if c = '[' then some 0 else (idxOf s '[').map (· + 1) from rfl,
    if_neg h]
  cases hx : (idxOf s '[').map (· + 1) with
  | none => rfl
  | some k =>
    cases k with
    | zero => exact absurd hx (optionMap_succ_ne_some_zero _)
    | succ k2 => rfl

theorem removeReferenceDeclaration_cons {c : Char} (h : c ≠ '@') (s : Str) :
    removeReferenceDeclaration (c :: s) = c :: s := by
  unfold removeReferenceDeclaration
  rw [show idxOf (c :: s) '@' = if c = '@' then some 0 else (idxOf s '@').map (· + 1) from rfl,
    if_neg h, if_neg (optionMap_succ_ne_some_zero _)]

theorem idxOf_cons_ne_some_zero {c x : Char} (h : c ≠ x) (s : Str) :
    idxOf (c :: s) x ≠ some 0 := by
  rw [show idxOf (c :: s) x = if c = x then some 0 else (idxOf s x).map (· + 1) from rfl,
    if_neg h]
  exact optionMap_succ_ne_some_zero _

/-! ## Set elements are silently dropped (claim C10) -/

/-- **C10.**  For every `Set` value with no extra own enumerable
properties, `Object.entries`-based entry enumeration is empty regardless
of the set's elements, so the encoder emits the empty entries block
`6|{}` for it — the elements are silently dropped — and decoding that
output produces an empty `Set`. -/
theorem c10_set_elements_dropped (elems : List JSValue) (props : List (Str × JSValue × Nat))
    (hprops : props.filter (fun p => isEnumerableFlag p.2.2) = [])
    (fz sl ex : Bool) (fuel : Nat) (hfuel : 3 ≤ fuel) :
    serializeTop [⟨.setObj, props, [], elems, fz, sl, ex⟩] DEFAULT_SHARED_CONFIGURATION fuel
        (.vobj 0) freshSState = .ok ['6', '|', '\x7b', '\x7d']
    ∧ deserializeTop DEFAULT_SHARED_CONFIGURATION 10 freshDState ['6', '|', '\x7b', '\x7d'] []
      = .ok (.vobj 0, ⟨[], [], 1, [⟨.setObj, [], [], [], false, false, true⟩]⟩) := by
  constructor
  · obtain ⟨f, rfl⟩ : ∃ f, fuel = f + 3 := ⟨fuel - 3, by omega⟩
    have hJS : ObjData.jsEntries ⟨.setObj, props, [], elems, fz, sl, ex⟩ = [] := by
      simp [ObjData.jsEntries, hprops]
    rw [show f + 3 = f + 1 + 1 + 1 from rfl]
    simp only [serializeTop, serializeStep, wipeState, freshSState, lookupRef,
      DEFAULT_SHARED_CONFIGURATION, isJSZero, List.getElem?_cons_zero]
    simp only [hJS]
    rfl
  · rfl

/-- Witness for C10: a concrete two-element set with a non-enumerable
extra own property. -/
theorem c10_set_elements_dropped_witness :
    serializeTop [⟨.setObj, [(['x'], .vbool true, 4)], [],
        [.vnum (.fin false 1), .vnum (.fin false 2)], false, false, true⟩]
      DEFAULT_SHARED_CONFIGURATION 10 (.vobj 0) freshSState = .ok ['6', '|', '\x7b', '\x7d'] :=
  (c10_set_elements_dropped [.vnum (.fin false 1), .vnum (.fin false 2)]
    [(['x'], .vbool true, 4)] (by decide) false false true 10 (by decide)).1

/-! ## Well-known symbols do not survive decoding (claim C1) -/

theorem idxOf_none_of {x : Char} : ∀ {s : Str}, (∀ c ∈ s, c ≠ x) → idxOf s x = none := by
  intro s h
  induction s with
  | nil => rfl
  | cons c rest ih =>
    rw [show idxOf (c :: rest) x = if c = x then some 0 else (idxOf rest x).map (· + 1) from rfl,
      if_neg (h c (by simp)), ih fun c2 hc => h c2 (by simp [hc])]
    rfl

theorem flatten_lit (s : Str) : flatten (lit s) = s := by
  induction s with
  | nil => rfl
  | cons c rest ih =>
    show c :: flatten (lit rest) = c :: rest
    rw [ih]

theorem mem_sym_payload_cases {c : Char} {idx : Nat} (hc : c ∈ '7' :: '|' :: natDigits idx) :
    c = '7' ∨ c = '|' ∨ c.isDigit = true := by
  simp only [List.mem_cons] at hc
  rcases hc with rfl | rfl | hc
  · exact Or.inl rfl
  · exact Or.inr (Or.inl rfl)
  · exact Or.inr (Or.inr (natDigits_all_digits idx c hc))

theorem clean_symbol_payload (idx : Nat) :
    clean ('@' :: '0' :: '=' :: '7' :: '|' :: natDigits idx) = '7' :: '|' :: natDigits idx := by
  have hnoat : declMatchesAux none (natDigits idx) = [] :=
    declMatchesAux_none_of_no_at (natDigits_mem_ne (by decide))
  have hdm : declMatches ('@' :: '0' :: '=' :: '7' :: '|' :: natDigits idx) = [['0']] := by
    show declMatchesAux none _ = _
    rw [show declMatchesAux none ('@' :: '0' :: '=' :: '7' :: '|' :: natDigits idx)
        = ['0'] :: declMatchesAux none (natDigits idx) from rfl, hnoat]
  have hnohash : ∀ c ∈ '@' :: '0' :: '=' :: '7' :: '|' :: natDigits idx, c ≠ '#' := by
    intro c hc
    simp only [List.mem_cons] at hc
    rcases hc with rfl | rfl | rfl | rfl | rfl | hc
    · decide
    · decide
    · decide
    · decide
    · decide
    · exact natDigits_mem_ne (by decide) c hc
  unfold clean
  rw [hdm]
  show (cleanStep ('@' :: '0' :: '=' :: '7' :: '|' :: natDigits idx, 0) ['0']).1 = _
  unfold cleanStep
  rw [hasPtrMatch_of_no_hash hnohash, if_neg (by simp)]
  rfl

theorem mkBlockInfo_symbol (idx : Nat) :
    mkBlockInfo ('7' :: '|' :: natDigits idx)
      = .ok ⟨none, none, ['7'], false, some (natDigits idx)⟩ := by
  have hrkb := removeKeyBrackets_cons (show '7' ≠ '[' by decide) ('|' :: natDigits idx)
  have hrrd := removeReferenceDeclaration_cons (show '7' ≠ '@' by decide) ('|' :: natDigits idx)
  have href : extractReference ('7' :: '|' :: natDigits idx) = .ok none := by
    unfold extractReference
    simp only [hrkb]
    rw [if_pos ⟨idxOf_cons_ne_some_zero (by decide) _, idxOf_cons_ne_some_zero (by decide) _⟩]
  have htyp : extractTypeStr ('7' :: '|' :: natDigits idx) = ['7'] := by
    unfold extractTypeStr
    simp only [hrkb, hrrd]
    rfl
  have hval : extractSerializedValue ('7' :: '|' :: natDigits idx) = some (natDigits idx) := by
    unfold extractSerializedValue
    simp only [hrkb, hrrd]
    rfl
  have hdesc : extractDescriptorInfo ('7' :: '|' :: natDigits idx) = .ok none := rfl
  unfold mkBlockInfo
  rw [show (do
      let r ← extractReference ('7' :: '|' :: natDigits idx)
      let d ← extractDescriptorInfo ('7' :: '|' :: natDigits idx)
      Except.ok (⟨r, d, extractTypeStr ('7' :: '|' :: natDigits idx),
        ('7' :: '|' :: natDigits idx).head? = some '[',
        extractSerializedValue ('7' :: '|' :: natDigits idx)⟩ : BlockInfo)
      : Except DesErr BlockInfo)
    = Except.bind (extractReference ('7' :: '|' :: natDigits idx)) (fun r =>
        Except.bind (extractDescriptorInfo ('7' :: '|' :: natDigits idx)) (fun d =>
          Except.ok ⟨r, d, extractTypeStr ('7' :: '|' :: natDigits idx),
            ('7' :: '|' :: natDigits idx).head? = some '[',
            extractSerializedValue ('7' :: '|' :: natDigits idx)⟩)) from rfl]
  rw [href, hdesc]
  show Except.ok _ = _
  rw [htyp, hval]
  rfl

/-- Decoding any block whose extracted info carries the symbol tag
`'7'`, no reference and a plain payload reaches the end of the
decoder's type-dispatch chain: there is no symbol branch, so the result
is the unknown-type decode error. -/
theorem deserializeStep_block_tag7 (cfg : SharedConfig) (fuel : Nat) (s : Str)
    (name : Option JSValue) (st : DState) (inner : Str)
    (hbi : mkBlockInfo s = .ok ⟨none, none, ['7'], false, some inner⟩) :
    deserializeStep cfg (fuel + 1) (.block s name) st = .error .unknownType := by
  unfold deserializeStep
  rw [hbi]
  rfl

/-- **C1 (refutation of the claimed behavior).**  The round trip breaks
already inside the supported universe: every well-known symbol encodes
to `7|<table index>` (the encoder fully supports them), yet the
decoder's type dispatch has no branch for the symbol tag `'7'` — its
else-chain covers only function, boolean, number, string, bigint and
date — so decoding the encoder's own output fails with the
unknown-type decode error instead of returning a value equivalent to
the input. -/
theorem c1_symbol_roundtrip_fails (idx : Nat) (hidx : idx < WELL_KNOWN_SYMBOL_COUNT)
    (fuel : Nat) (hfuel : 2 ≤ fuel) :
    serializeTop [] DEFAULT_SHARED_CONFIGURATION fuel (.vsym idx) freshSState
      = .ok ('7' :: '|' :: natDigits idx)
    ∧ deserializeTop DEFAULT_SHARED_CONFIGURATION 10 freshDState
        ('7' :: '|' :: natDigits idx) []
      = .error .unknownType := by
  constructor
  · obtain ⟨f, rfl⟩ : ∃ f, fuel = f + 2 := ⟨fuel - 2, by omega⟩
    rw [show f + 2 = f + 1 + 1 from rfl]
    simp only [serializeTop, serializeStep, wipeState, freshSState, lookupRef,
      DEFAULT_SHARED_CONFIGURATION, isJSZero, if_pos hidx]
    rw [show flatten (Tok.decl 0 :: lit ('7' :: '|' :: natDigits idx))
        = '@' :: '0' :: '=' :: flatten (lit ('7' :: '|' :: natDigits idx)) from rfl,
      flatten_lit, clean_symbol_payload idx]
    rfl
  · have hexcl : ∀ c ∈ '7' :: '|' :: natDigits idx, c ≠ '!' := by
      intro c hc
      rcases mem_sym_payload_cases hc with rfl | rfl | hd
      · decide
      · decide
      · exact digitChar_mem_ne hd (by decide)
    have hbr : ∀ c ∈ '7' :: '|' :: natDigits idx, c ≠ ']' := by
      intro c hc
      rcases mem_sym_payload_cases hc with rfl | rfl | hd
      · decide
      · decide
      · exact digitChar_mem_ne hd (by decide)
    have hsd : setupDependencies freshDState ('7' :: '|' :: natDigits idx) []
        = .ok ('7' :: '|' :: natDigits idx, freshDState) := by
      unfold setupDependencies
      rw [show DEPENDENCIES_S = '!' :: ['['] from rfl, show DEPENDENDIES_E = ']' :: ['!'] from rfl,
        idxOfSub_none_of_hd hexcl, idxOfSub_none_of_hd hbr]
    unfold deserializeTop
    rw [hsd]
    rw [show (10 : Nat) = 9 + 1 from rfl]
    exact deserializeStep_block_tag7 _ _ _ _ _ _ (mkBlockInfo_symbol idx)

/-- Witness for C1 at a concrete table index and fuel. -/
theorem c1_symbol_roundtrip_fails_witness :
    serializeTop [] DEFAULT_SHARED_CONFIGURATION 10 (.vsym 3) freshSState
      = .ok ('7' :: '|' :: natDigits 3)
    ∧ deserializeTop DEFAULT_SHARED_CONFIGURATION 10 freshDState ('7' :: '|' :: natDigits 3) []
      = .error .unknownType :=
  c1_symbol_roundtrip_fails 3 (by decide) 10 (by decide)

/-! ## Unknown reference rejection (claim C8) -/

theorem headIsDigit_of {ds : Str} (hne : ds ≠ []) (hd : ∀ c ∈ ds, c.isDigit = true) :
    headIsDigit ds = true := by
  cases ds with
  | nil => exact absurd rfl hne
  | cons c rest => exact hd c (by simp)

/-- The block info of a bare pointer `#<digits>`: a reference-get with
the digits' numeric value, no descriptor, the whole block as its "type"
string, and no payload. -/
theorem mkBlockInfo_ptr (ds : Str) (hne : ds ≠ []) (hd : ∀ c ∈ ds, c.isDigit = true) :
    mkBlockInfo ('#' :: ds) = .ok ⟨some (.get, digitsVal ds), none, '#' :: ds, false, none⟩ := by
  have hrkb := removeKeyBrackets_cons (show '#' ≠ '[' by decide) ds
  have hrrd := removeReferenceDeclaration_cons (show '#' ≠ '@' by decide) ds
  have hnopipe : idxOf ('#' :: ds) '|' = none := by
    refine idxOf_none_of ?_
    intro c hc
    simp only [List.mem_cons] at hc
    rcases hc with rfl | hc
    · decide
    · exact digitChar_mem_ne (hd c hc) (by decide)
  have hh : headIsDigit ds = true := headIsDigit_of hne hd
  have href : extractReference ('#' :: ds) = .ok (some (.get, digitsVal ds)) := by
    unfold extractReference
    simp only [hrkb]
    rw [if_neg (fun h => h.1 rfl)]
    unfold findRefDigits findRefDigitsAux
    simp [show headIsDigit ('#' :: ds) = false from rfl, hh, takeWhile_all hd,
      show idxOf ('#' :: ds) '#' = some 0 from rfl]
  have hdesc : extractDescriptorInfo ('#' :: ds) = .ok none := rfl
  have htyp : extractTypeStr ('#' :: ds) = '#' :: ds := by
    unfold extractTypeStr
    simp only [hrkb, hrrd, hnopipe]
  have hval : extractSerializedValue ('#' :: ds) = none := by
    unfold extractSerializedValue
    simp only [hrkb, hrrd, hnopipe]
  unfold mkBlockInfo
  rw [show (do
      let r ← extractReference ('#' :: ds)
      let d ← extractDescriptorInfo ('#' :: ds)
      Except.ok (⟨r, d, extractTypeStr ('#' :: ds), ('#' :: ds).head? = some '[',
        extractSerializedValue ('#' :: ds)⟩ : BlockInfo)
      : Except DesErr BlockInfo)
    = Except.bind (extractReference ('#' :: ds)) (fun r =>
        Except.bind (extractDescriptorInfo ('#' :: ds)) (fun d =>
          Except.ok ⟨r, d, extractTypeStr ('#' :: ds), ('#' :: ds).head? = some '[',
            extractSerializedValue ('#' :: ds)⟩)) from rfl]
  rw [href, hdesc]
  show Except.ok _ = _
  rw [htyp, hval]
  rfl

/-- A block whose info is a pure reference-get of an unbound id (and
whose "type" string `#…` is neither singleton nor entried nor custom)
fails with the unbound-reference decode error. -/
theorem deserializeStep_block_get_unbound (cfg : SharedConfig) (fuel : Nat) (s : Str)
    (name : Option JSValue) (st : DState) (id : Nat) (ds : Str)
    (hrefs : st.references = [])
    (hbi : mkBlockInfo s = .ok ⟨some (.get, id), none, '#' :: ds, false, none⟩) :
    deserializeStep cfg (fuel + 1) (.block s name) st = .error (.unboundReference id) := by
  unfold deserializeStep
  rw [hbi]
  simp [getReference, hrefs, assocFind,
    show isSingletonType ('#' :: ds) = false from rfl,
    show isEntriedType ('#' :: ds) = false from rfl,
    show isCustomType ('#' :: ds) = false from rfl]

/-- **C8.** A `#<id>` pointer whose declaration has not been processed
before the pointer is reached fails with a decode error instead of
producing a value: `getReference` rejects any unbound id, and a bare
`#<id>` given to a fresh `Deserializer` (whose reference table is
empty) makes `deserialize` fail with exactly that error. -/
theorem c8_unbound_reference_rejected :
    (∀ (st : DState) (id : Nat), assocFind st.references id = none →
      getReference st id = .error (.unboundReference id))
    ∧ (∀ id : Nat, deserializeTop DEFAULT_SHARED_CONFIGURATION 2 freshDState
        ('#' :: natDigits id) [] = .error (.unboundReference id)) := by
  constructor
  · intro st id h
    unfold getReference
    rw [h]
  · intro id
    have hmem : ∀ x : Char, x ≠ '#' → x.isDigit = false →
        ∀ c ∈ '#' :: natDigits id, c ≠ x := by
      intro x hx1 hx2 c hc
      simp only [List.mem_cons] at hc
      rcases hc with rfl | hc
      · exact fun he => hx1 he.symm
      · exact digitChar_mem_ne (natDigits_all_digits id c hc) hx2
    have hsd : setupDependencies freshDState ('#' :: natDigits id) []
        = .ok ('#' :: natDigits id, freshDState) := by
      unfold setupDependencies
      rw [show DEPENDENCIES_S = '!' :: ['['] from rfl, show DEPENDENDIES_E = ']' :: ['!'] from rfl,
        idxOfSub_none_of_hd (hmem '!' (by decide) (by decide)),
        idxOfSub_none_of_hd (hmem ']' (by decide) (by decide))]
    have hbi := mkBlockInfo_ptr (natDigits id) (natDigits_ne_nil id) (natDigits_all_digits id)
    rw [digitsVal_natDigits] at hbi
    unfold deserializeTop
    rw [hsd]
    rw [show (2 : Nat) = 1 + 1 from rfl]
    exact deserializeStep_block_get_unbound _ _ _ _ _ _ _ rfl hbi

/-- Witness for C8 at concrete inputs. -/
theorem c8_unbound_reference_rejected_witness :
    getReference freshDState 0 = .error (.unboundReference 0)
    ∧ deserializeTop DEFAULT_SHARED_CONFIGURATION 2 freshDState ('#' :: natDigits 5) []
      = .error (.unboundReference 5) :=
  ⟨c8_unbound_reference_rejected.1 freshDState 0 rfl, c8_unbound_reference_rejected.2 5⟩

/-! ## The entry tokenizer (claim C7) -/

/-- Scanning a well-formed fragment from depth `d0` appends it verbatim
to `buffer1` and performs no flushes. -/
theorem foldl_entStep_frag (f : Str) :
    ∀ (d0 dEnd : Nat) (b1 : Str) (b2 : List Str) (out : List (Str × Str)),
      fragScan f d0 = some dEnd →
      f.foldl entStep (Except.ok (b1, b2, out, (d0 : Int)))
        = .ok (b1 ++ f, b2, out, (dEnd : Int)) := by
  induction f with
  | nil =>
    intro d0 dEnd b1 b2 out h
    simp only [fragScan, Option.some.injEq] at h
    subst h
    simp
  | cons c rest ih =>
    intro d0 dEnd b1 b2 out h
    rw [List.foldl_cons]
    by_cases h1 : c = '\x7b'
    · subst h1
      rw [show fragScan ('\x7b' :: rest) d0 = fragScan rest (d0 + 1) from by
        simp [fragScan]] at h
      rw [show entStep (Except.ok (b1, b2, out, (d0 : Int))) '\x7b'
          = .ok (b1 ++ ['\x7b'], b2, out, ((d0 : Int) + 1)) from by
        simp [entStep]]
      rw [show ((d0 : Int) + 1) = ((d0 + 1 : Nat) : Int) from by push_cast; ring]
      rw [ih (d0 + 1) dEnd (b1 ++ ['\x7b']) b2 out h]
      simp
    · by_cases h2 : c = '\x7d'
      · subst h2
        have hd0 : d0 ≠ 0 := by
          intro h0; subst h0
          rw [show fragScan ('\x7d' :: rest) 0 = none from by simp [fragScan]] at h
          exact absurd h (by simp)
        rw [show fragScan ('\x7d' :: rest) d0 = fragScan rest (d0 - 1) from by
          simp [fragScan, hd0]] at h
        rw [show entStep (Except.ok (b1, b2, out, (d0 : Int))) '\x7d'
            = .ok (b1 ++ ['\x7d'], b2, out, ((d0 : Int) + -1)) from by
          simp [entStep]]
        rw [show ((d0 : Int) + -1) = ((d0 - 1 : Nat) : Int) from by omega]
        rw [ih (d0 - 1) dEnd (b1 ++ ['\x7d']) b2 out h]
        simp
      · by_cases h3 : c = ':' ∨ c = ','
        · have hd0 : d0 ≠ 0 := by
            intro h0; subst h0
            rw [show fragScan (c :: rest) 0 = none from by
              simp [fragScan, h1, h2, h3]] at h
            exact absurd h (by simp)
          rw [show fragScan (c :: rest) d0 = fragScan rest d0 from by
            simp [fragScan, h1, h2, hd0]] at h
          have hdi : ¬ ((d0 : Int) = 0) := by exact_mod_cast hd0
          rw [show entStep (Except.ok (b1, b2, out, (d0 : Int))) c
              = .ok (b1 ++ [c], b2, out, (d0 : Int)) from by
            rcases h3 with rfl | rfl <;> simp [entStep, hdi]]
          rw [ih d0 dEnd (b1 ++ [c]) b2 out h]
          simp
        · push_neg at h3
          rw [show fragScan (c :: rest) d0 = fragScan rest d0 from by
            simp [fragScan, h1, h2, h3]] at h
          rw [show entStep (Except.ok (b1, b2, out, (d0 : Int))) c
              = .ok (b1 ++ [c], b2, out, (d0 : Int)) from by
            simp [entStep, h1, h2, h3]]
          rw [ih d0 dEnd (b1 ++ [c]) b2 out h]
          simp

theorem fragOk_spec {f : Str} (h : fragOk f = true) : fragScan f 0 = some 0 := by
  simpa [fragOk] using h

theorem foldl_entStep_frag0 (f : Str) (b1 : Str) (b2 : List Str)
    (out : List (Str × Str)) (h : fragScan f 0 = some 0) :
    f.foldl entStep (Except.ok (b1, b2, out, (0 : Int))) = .ok (b1 ++ f, b2, out, (0 : Int)) := by
  have h2 := foldl_entStep_frag f 0 0 b1 b2 out h
  simpa using h2

theorem lastIdxOf_append_last (s : Str) (c : Char) :
    lastIdxOf (s ++ [c]) c = some s.length := by
  unfold lastIdxOf
  rw [List.reverse_append]
  rw [show ([c].reverse ++ s.reverse) = c :: s.reverse from by simp]
  rw [show idxOf (c :: s.reverse) c = some 0 from by simp [idxOf]]
  simp

/-- `extractEntries` on a braced body reduces to the character scan of
the body followed by the two final flushes. -/
theorem extractEntries_wrap (body : Str) :
    extractEntries ('\x7b' :: body ++ ['\x7d'])
      = match body.foldl entStep (Except.ok ([], [], [], 0)) with
        | .error err => .error err
        | .ok (b1, b2, out, _) =>
          match flush2 (flush1 b1 b2).2 out with
          | .error err => .error err
          | .ok (_, outF) => .ok outF := by
  have hslice : slicePos (('\x7b' :: body) ++ ['\x7d']) 1 ('\x7b' :: body).length = body := by
    simp only [slicePos, List.length_cons]
    rw [show (('\x7b' :: body) ++ ['\x7d']).drop 1 = body ++ ['\x7d'] from by simp]
    rw [show body.length + 1 - 1 = body.length from by omega]
    exact List.take_left body ['\x7d']
  unfold extractEntries
  rw [show idxOf ('\x7b' :: body ++ ['\x7d']) '\x7b' = some 0 from by simp [idxOf]]
  rw [show ('\x7b' :: body ++ ['\x7d']) = ('\x7b' :: body) ++ ['\x7d'] from by simp]
  rw [lastIdxOf_append_last]
  simp only [hslice]

theorem dropLast_cons_append_getLastD {α : Type} (a : α) :
    ∀ l : List α, (a :: l).dropLast ++ [l.getLastD a] = a :: l := by
  intro l
  induction l generalizing a with
  | nil => rfl
  | cons b rest ih =>
    rw [show (b :: rest).getLastD a = rest.getLastD b from by
      cases rest <;> simp [List.getLastD]]
    rw [show (a :: b :: rest).dropLast = a :: (b :: rest).dropLast from List.dropLast_cons₂,
      List.cons_append, ih b]

/-- Scanning the joined `key:value` fragments of a non-empty pair list
ends with the last value in `buffer1`, the last key alone in `buffer2`,
and every earlier pair already emitted. -/
theorem joinPairs_scan :
    ∀ (pairs : List (Str × Str)) (k v : Str) (out : List (Str × Str)),
      (∀ p ∈ (k, v) :: pairs, p.1 ≠ [] ∧ p.2 ≠ [] ∧ fragOk p.1 ∧ fragOk p.2) →
      (joinPairs ((k, v) :: pairs)).foldl entStep (Except.ok ([], [], out, 0))
        = .ok ((pairs.getLastD (k, v)).2, [(pairs.getLastD (k, v)).1],
            out ++ ((k, v) :: pairs).dropLast, 0) := by
  intro pairs
  induction pairs with
  | nil =>
    intro k v out h
    obtain ⟨hk, hv, hks, hvs⟩ := h (k, v) (by simp)
    rw [show joinPairs [(k, v)] = k ++ ':' :: v from rfl]
    rw [List.foldl_append]
    rw [foldl_entStep_frag0 k [] [] out (fragOk_spec hks)]
    rw [List.foldl_cons]
    rw [show entStep (Except.ok (([] : Str) ++ k, ([] : List Str), out, (0 : Int))) ':'
        = .ok ([], [k], out, (0 : Int)) from by
      simp [entStep, flush1, hk]]
    rw [foldl_entStep_frag0 v [] [k] out (fragOk_spec hvs)]
    simp
  | cons p rest ih =>
    intro k v out h
    obtain ⟨hk, hv, hks, hvs⟩ := h (k, v) (by simp)
    have sk : List.foldl entStep (Except.ok (([] : Str), ([] : List Str), out, (0 : Int)))
        (k ++ ':' :: v) = .ok (v, [k], out, (0 : Int)) := by
      rw [List.foldl_append, foldl_entStep_frag0 k [] [] out (fragOk_spec hks), List.foldl_cons]
      rw [show entStep (Except.ok (([] : Str) ++ k, ([] : List Str), out, (0 : Int))) ':'
          = .ok ([], [k], out, (0 : Int)) from by
        simp [entStep, flush1, hk]]
      have hfv := foldl_entStep_frag0 v [] [k] out (fragOk_spec hvs)
      simpa using hfv
    have sc : entStep (Except.ok ((v : Str), [k], out, (0 : Int))) ','
        = .ok ([], [], out ++ [(k, v)], (0 : Int)) := by
      simp [entStep, flush1, flush2, hv]
    rw [show joinPairs ((k, v) :: p :: rest) = (k ++ ':' :: v) ++ ',' :: joinPairs (p :: rest)
      from by simp [joinPairs]]
    rw [List.foldl_append, sk, List.foldl_cons, sc]
    obtain ⟨q, r⟩ := p
    rw [ih q r (out ++ [(k, v)]) (fun p hp => h p (by simp at hp ⊢; tauto))]
    rw [show ((q, r) :: rest).getLastD (k, v) = rest.getLastD (q, r) from by
      cases rest <;> simp [List.getLastD]]
    rw [show ((k, v) :: (q, r) :: rest).dropLast = (k, v) :: ((q, r) :: rest).dropLast from
      List.dropLast_cons₂]
    simp

/-- **C7.** The entry tokenizer splits the text between the outermost
braces into ordered `(key, value)` pairs using only `:` and `,` at
brace-depth zero: joining any list of well-formed fragments (non-empty,
balanced, depth-zero-separator-free — nested braces and nested
separators are kept verbatim) recovers exactly that list; an empty body
yields zero pairs; and a body that flushes a group that is not exactly
a key part plus a value part (here: a single fragment) raises the
decode error. -/
theorem c7_extract_entries_tokenizer :
    (∀ pairs : List (Str × Str),
      (∀ p ∈ pairs, p.1 ≠ [] ∧ p.2 ≠ [] ∧ fragOk p.1 ∧ fragOk p.2) →
      extractEntries ('\x7b' :: joinPairs pairs ++ ['\x7d']) = .ok pairs)
    ∧ extractEntries ['\x7b', '\x7d'] = .ok []
    ∧ (∀ s : Str, s ≠ [] → fragOk s →
      extractEntries ('\x7b' :: s ++ ['\x7d']) = .error .nonPairEntry) := by
  refine ⟨?_, rfl, ?_⟩
  · intro pairs h
    cases pairs with
    | nil => rfl
    | cons kv rest =>
      obtain ⟨k, v⟩ := kv
      have hdrop := dropLast_cons_append_getLastD (k, v) rest
      have hlast : rest.getLastD (k, v) ∈ (k, v) :: rest := by
        rw [← hdrop]
        exact List.mem_append_right _ (by simp)
      obtain ⟨hk, hv, _, _⟩ := h _ hlast
      rw [extractEntries_wrap, joinPairs_scan rest k v [] h]
      show (match flush2 (flush1 (rest.getLastD (k, v)).2 [(rest.getLastD (k, v)).1]).2
          ([] ++ ((k, v) :: rest).dropLast) with
        | .error err => Except.error err
        | .ok (_, outF) => Except.ok outF) = Except.ok ((k, v) :: rest)
      rw [show flush1 (rest.getLastD (k, v)).2 [(rest.getLastD (k, v)).1]
          = ([], [(rest.getLastD (k, v)).1, (rest.getLastD (k, v)).2]) from by
        unfold flush1
        rw [if_pos hv]
        rfl]
      show Except.ok (([] : List (Str × Str)) ++ ((k, v) :: rest).dropLast
        ++ [((rest.getLastD (k, v)).1, (rest.getLastD (k, v)).2)]) = _
      rw [Prod.mk.eta, List.nil_append, hdrop]
  · intro s hne hok
    rw [extractEntries_wrap]
    rw [foldl_entStep_frag0 s [] [] [] (fragOk_spec hok)]
    simp [flush1, flush2, hne]

/-- Witness for C7: two concrete entries (the second with a nested
braced value), and a one-fragment body that errors. -/
theorem c7_extract_entries_tokenizer_witness :
    extractEntries ('\x7b' :: joinPairs
        [(['a'], '1' :: '|' :: ['b']), (['c'], '3' :: '|' :: '\x7b' :: ['\x7d'])] ++ ['\x7d'])
      = .ok [(['a'], '1' :: '|' :: ['b']), (['c'], '3' :: '|' :: '\x7b' :: ['\x7d'])]
    ∧ extractEntries ('\x7b' :: ['x'] ++ ['\x7d']) = .error .nonPairEntry :=
  ⟨c7_extract_entries_tokenizer.1 _ (by decide),
    c7_extract_entries_tokenizer.2.2 ['x'] (by decide) (by decide)⟩

/-! ## Reference compactness of `clean` (claim C4)

The proof views a serialized string as the flattening of a token list
(declarations `@id=`, pointers `#id`, plain characters), tracks how one
`forEach` iteration of `clean` rewrites the token list, and shows that
after all iterations the surviving declarations are exactly the
pointed-to ones, renumbered `0..k-1` in first-declaration order with
all pointers renumbered consistently. -/

theorem isPrefixOf_append_self (a b : Str) : a.isPrefixOf (a ++ b) = true :=
  List.isPrefixOf_iff_prefix.mpr (List.prefix_append a b)

/-- A canonical digit string followed by a non-digit marker is a prefix
of another such sequence exactly when the digit strings agree. -/
theorem digitStr_marker_matches : ∀ (a b : Str), (∀ c ∈ a, c.isDigit = true) →
    (∀ c ∈ b, c.isDigit = true) → ∀ (m : Char), m.isDigit = false → ∀ (r : Str),
    (a ++ [m]).isPrefixOf (b ++ m :: r) = decide (a = b) := by
  intro a
  induction a with
  | nil =>
    intro b _ hb m hm r
    cases b with
    | nil => simp [List.isPrefixOf]
    | cons d b' =>
      have hd : d.isDigit = true := hb d (by simp)
      have hmd : m ≠ d := (digitChar_mem_ne hd hm).symm
      simp [List.isPrefixOf, hmd]
  | cons x a' ih =>
    intro b ha hb m hm r
    have hx : x.isDigit = true := ha x (by simp)
    cases b with
    | nil =>
      have hxm : x ≠ m := digitChar_mem_ne hx hm
      simp [List.isPrefixOf, hxm]
    | cons d b' =>
      by_cases hxd : x = d
      · subst hxd
        have hstep : ((x :: (a' ++ [m])).isPrefixOf (x :: (b' ++ m :: r)))
            = ((a' ++ [m]).isPrefixOf (b' ++ m :: r)) := by
          simp [List.isPrefixOf]
        rw [List.cons_append, List.cons_append, hstep,
          ih b' (fun c hc => ha c (by simp [hc])) (fun c hc => hb c (by simp [hc])) m hm r]
        simp
      · simp [List.isPrefixOf, hxd]

/-- A `#<q>(\D)` match sits at a `#` followed by the digit run `p` and a
non-digit exactly when `q = p`. -/
theorem ptrAt_digit_run : ∀ (q p : Str), (∀ c ∈ q, c.isDigit = true) →
    (∀ c ∈ p, c.isDigit = true) → ∀ (c : Char), c.isDigit = false → ∀ (r : Str),
    ptrAt ('#' :: (p ++ c :: r)) q = decide (q = p) := by
  intro q
  induction q with
  | nil =>
    intro p _ hp c hc r
    cases p with
    | nil => simp [ptrAt, List.isPrefixOf, hc]
    | cons d p' =>
      have hd : d.isDigit = true := hp d (by simp)
      simp [ptrAt, List.isPrefixOf, hd]
  | cons y q' ih =>
    intro p hq hp c hc r
    have hy : y.isDigit = true := hq y (by simp)
    cases p with
    | nil =>
      have hyc : y ≠ c := digitChar_mem_ne hy hc
      simp [ptrAt, List.isPrefixOf, hyc]
    | cons d p' =>
      by_cases hyd : y = d
      · subst hyd
        have hstep : ptrAt ('#' :: (y :: p' ++ c :: r)) (y :: q')
            = ptrAt ('#' :: (p' ++ c :: r)) q' := by
          simp [ptrAt, List.isPrefixOf]
        rw [hstep,
          ih p' (fun z hz => hq z (by simp [hz])) (fun z hz => hp z (by simp [hz])) c hc r]
        simp
      · simp [ptrAt, List.isPrefixOf, hyd]

theorem replaceFirst_cons_no_match {c : Char} {rest pat rep : Str}
    (h : pat.isPrefixOf (c :: rest) = false) :
    replaceFirst (c :: rest) pat rep = c :: replaceFirst rest pat rep := by
  show (if pat.isPrefixOf (c :: rest) then rep ++ (c :: rest).drop pat.length
    else c :: replaceFirst rest pat rep) = c :: replaceFirst rest pat rep
  rw [if_neg (by rw [h]; exact Bool.false_ne_true)]

/-- The leftmost-occurrence replacement fires at an exact occurrence of
the (non-empty) pattern at the head. -/
theorem replaceFirst_hit (pat rest rep : Str) (hne : pat ≠ []) :
    replaceFirst (pat ++ rest) pat rep = rep ++ rest := by
  cases pat with
  | nil => exact absurd rfl hne
  | cons c p' =>
    rw [List.cons_append]
    show (if (c :: p').isPrefixOf (c :: (p' ++ rest)) then
        rep ++ (c :: (p' ++ rest)).drop (c :: p').length
      else c :: replaceFirst (p' ++ rest) (c :: p') rep) = rep ++ rest
    rw [if_pos (by rw [← List.cons_append]; exact isPrefixOf_append_self (c :: p') rest)]
    rw [show ((c :: p').length) = p'.length + 1 from rfl, List.drop_succ_cons,
      List.drop_left]

/-- `replaceFirst` with a pattern starting in `@` steps over a chunk
free of `@`. -/
theorem replaceFirst_append_no_at {patTail rep : Str} : ∀ (s : Str), (∀ c ∈ s, c ≠ '@') →
    ∀ (rest : Str), replaceFirst (s ++ rest) ('@' :: patTail) rep
      = s ++ replaceFirst rest ('@' :: patTail) rep := by
  intro s
  induction s with
  | nil => intro _ rest; simp
  | cons c s' ih =>
    intro hs rest
    have hc : c ≠ '@' := hs c (by simp)
    have hpre : (('@' :: patTail).isPrefixOf (c :: (s' ++ rest))) = false := by
      have : ('@' == c) = false := beq_eq_false_iff_ne.mpr (Ne.symm hc)
      simp [List.isPrefixOf, this]
    rw [List.cons_append, replaceFirst_cons_no_match hpre,
      ih (fun z hz => hs z (by simp [hz])) rest]
    simp

/-- `replaceFirst` for a declaration pattern steps over a declaration
with a different id. -/
theorem replaceFirst_decl_skip (j e : Nat) (hne : e ≠ j) (rep rest : Str) :
    replaceFirst (('@' :: (natDigits e ++ ['='])) ++ rest) ('@' :: (natDigits j ++ ['='])) rep
      = ('@' :: (natDigits e ++ ['='])) ++ replaceFirst rest ('@' :: (natDigits j ++ ['='])) rep := by
  have hmark : ((natDigits j ++ ['=']).isPrefixOf (natDigits e ++ '=' :: rest)) = false := by
    rw [digitStr_marker_matches (natDigits j) (natDigits e) (natDigits_all_digits j)
        (natDigits_all_digits e) '=' (by decide) rest]
    exact decide_eq_false fun h => hne (natDigits_injective h).symm
  have hpre : (('@' :: (natDigits j ++ ['='])).isPrefixOf
      ('@' :: ((natDigits e ++ ['=']) ++ rest))) = false := by
    simp [List.isPrefixOf, hmark]
  rw [List.cons_append, replaceFirst_cons_no_match hpre,
    replaceFirst_append_no_at (natDigits e ++ ['='])
      (fun z hz => by
        rcases List.mem_append.mp hz with h | h
        · exact natDigits_mem_ne (by decide) z h
        · simp at h; simp [h])
      rest]
  simp

theorem hasPtrMatch_cons_false {c : Char} {rest ds : Str} (h : ptrAt (c :: rest) ds = false) :
    hasPtrMatch (c :: rest) ds = hasPtrMatch rest ds := by
  show (ptrAt (c :: rest) ds || hasPtrMatch rest ds) = hasPtrMatch rest ds
  rw [h, Bool.false_or]

theorem hasPtrMatch_append_no_hash : ∀ (s : Str), (∀ c ∈ s, c ≠ '#') → ∀ (rest ds : Str),
    hasPtrMatch (s ++ rest) ds = hasPtrMatch rest ds := by
  intro s
  induction s with
  | nil => intro _ rest ds; rfl
  | cons c s' ih =>
    intro hs rest ds
    have hc : c ≠ '#' := hs c (by simp)
    rw [List.cons_append, hasPtrMatch_cons_false (ptrAt_false_of_ne hc _ _),
      ih (fun z hz => hs z (by simp [hz])) rest ds]

theorem replacePtrAux_nil (f : Nat) (ds new : Str) : replacePtrAux f [] ds new = [] := by
  cases f with
  | zero => rfl
  | succ g => rfl

theorem replacePtrAux_succ (fuel : Nat) (c : Char) (rest ds new : Str) :
    replacePtrAux (fuel + 1) (c :: rest) ds new
      = if ptrAt (c :: rest) ds then
          match (c :: rest).drop (1 + ds.length) with
          | d :: tail => ('#' :: new) ++ d :: replacePtrAux fuel tail ds new
          | [] => c :: rest
        else c :: replacePtrAux fuel rest ds new := rfl

/-- Any fuel at least the length of the string gives the same result:
each step of `replacePtrAux` consumes at least one character. -/
theorem replacePtrAux_fuel_irrel : ∀ (f1 : Nat) (f2 : Nat) (s ds new : Str),
    s.length ≤ f1 → s.length ≤ f2 →
    replacePtrAux f1 s ds new = replacePtrAux f2 s ds new := by
  intro f1
  induction f1 with
  | zero =>
    intro f2 s ds new h1 _
    have : s = [] := List.eq_nil_of_length_eq_zero (Nat.le_zero.mp h1)
    subst this
    rw [replacePtrAux_nil, replacePtrAux_nil]
  | succ g1 ih =>
    intro f2 s ds new h1 h2
    cases s with
    | nil => rw [replacePtrAux_nil, replacePtrAux_nil]
    | cons c rest =>
      cases f2 with
      | zero => simp at h2
      | succ g2 =>
        have hr1 : rest.length ≤ g1 := by simp [List.length_cons] at h1; omega
        have hr2 : rest.length ≤ g2 := by simp [List.length_cons] at h2; omega
        rw [replacePtrAux_succ g1 c rest ds new, replacePtrAux_succ g2 c rest ds new]
        by_cases hp : ptrAt (c :: rest) ds = true
        · rw [if_pos hp, if_pos hp]
          cases hdrop : (c :: rest).drop (1 + ds.length) with
          | nil => rfl
          | cons d tail =>
            have hlen : tail.length ≤ rest.length := by
              have := congrArg List.length hdrop
              simp [List.length_drop] at this
              omega
            show ('#' :: new) ++ d :: replacePtrAux g1 tail ds new
              = ('#' :: new) ++ d :: replacePtrAux g2 tail ds new
            rw [ih g2 tail ds new (by omega) (by omega)]
        · rw [if_neg hp, if_neg hp, ih g2 rest ds new hr1 hr2]

theorem replacePtrGlobal_cons_no_match {c : Char} {rest ds new : Str}
    (h : ptrAt (c :: rest) ds = false) :
    replacePtrGlobal (c :: rest) ds new = c :: replacePtrGlobal rest ds new := by
  show replacePtrAux (c :: rest).length (c :: rest) ds new = _
  rw [show (c :: rest).length = rest.length + 1 from rfl,
    replacePtrAux_succ rest.length c rest ds new,
    if_neg (by rw [h]; exact Bool.false_ne_true)]
  rfl

/-- `replacePtrGlobal` steps over a chunk free of `#`. -/
theorem replacePtrGlobal_append_no_hash : ∀ (s : Str), (∀ x ∈ s, x ≠ '#') →
    ∀ (rest ds new : Str),
    replacePtrGlobal (s ++ rest) ds new = s ++ replacePtrGlobal rest ds new := by
  intro s
  induction s with
  | nil => intro _ rest ds new; simp
  | cons c s' ih =>
    intro hs rest ds new
    have hc : c ≠ '#' := hs c (by simp)
    rw [List.cons_append, replacePtrGlobal_cons_no_match (ptrAt_false_of_ne hc _ _),
      ih (fun z hz => hs z (by simp [hz])) rest ds new]
    simp

/-- `replacePtrGlobal` rewrites a full pointer occurrence `#<p>` (with
its non-digit follower) and resumes after the follower. -/
theorem replacePtrGlobal_ptr_hit (p m : Nat) (c : Char) (hc : c.isDigit = false) (r : Str) :
    replacePtrGlobal ('#' :: (natDigits p ++ c :: r)) (natDigits p) (natDigits m)
      = ('#' :: natDigits m) ++ c :: replacePtrGlobal r (natDigits p) (natDigits m) := by
  have hat : ptrAt ('#' :: (natDigits p ++ c :: r)) (natDigits p) = true := by
    rw [ptrAt_digit_run (natDigits p) (natDigits p) (natDigits_all_digits p)
      (natDigits_all_digits p) c hc r]
    simp
  have hdrop : ('#' :: (natDigits p ++ c :: r)).drop (1 + (natDigits p).length) = c :: r := by
    rw [Nat.add_comm 1 (natDigits p).length, List.drop_succ_cons, List.drop_left]
  have hlen : ('#' :: (natDigits p ++ c :: r)).length
      = ((natDigits p).length + r.length + 1) + 1 := by
    simp [List.length_cons, List.length_append]
    omega
  show replacePtrAux ('#' :: (natDigits p ++ c :: r)).length _ _ _ = _
  rw [hlen, replacePtrAux_succ ((natDigits p).length + r.length + 1) '#'
    (natDigits p ++ c :: r) (natDigits p) (natDigits m)]
  rw [if_pos hat, hdrop]
  show ('#' :: natDigits m) ++ c :: replacePtrAux ((natDigits p).length + r.length + 1) r
      (natDigits p) (natDigits m) = _
  rw [replacePtrAux_fuel_irrel ((natDigits p).length + r.length + 1) r.length r
    (natDigits p) (natDigits m) (by omega) (Nat.le_refl _)]
  rfl

theorem flatten_cons (t : Tok) (l : List Tok) :
    flatten (t :: l) = flattenTok t ++ flatten l := rfl

theorem flatten_append (a b : List Tok) :
    flatten (a ++ b) = flatten a ++ flatten b := by
  simp [flatten]

theorem chrOk_cons (t : Tok) (l : List Tok) :
    chrOk (t :: l) = (chrOkTok t && chrOk l) := by
  simp [chrOk]

theorem chrOk_append (a b : List Tok) :
    chrOk (a ++ b) = (chrOk a && chrOk b) := by
  simp [chrOk, List.all_append]

theorem chrOk_chr_head {c : Char} {l : List Tok} (h : chrOk (.chr c :: l) = true) :
    c ≠ '@' ∧ c ≠ '#' ∧ chrOk l = true := by
  rw [chrOk_cons, Bool.and_eq_true] at h
  have h1 := h.1
  simp [chrOkTok] at h1
  exact ⟨h1.1, h1.2, h.2⟩

theorem ptrClosedOk_cons_nonptr {t : Tok} (ht : ∀ p, t ≠ .ptr p) (l : List Tok) :
    ptrClosedOk (t :: l) = ptrClosedOk l := by
  cases t with
  | decl i => rfl
  | ptr p => exact absurd rfl (ht p)
  | chr c => rfl

theorem ptrClosedOk_ptr_destruct {p : Nat} {l : List Tok}
    (h : ptrClosedOk (.ptr p :: l) = true) :
    ∃ c l', l = .chr c :: l' ∧ c.isDigit = false ∧ ptrClosedOk l = true := by
  cases l with
  | nil => simp [ptrClosedOk] at h
  | cons t2 l2 =>
    cases t2 with
    | decl i => simp [ptrClosedOk] at h
    | ptr q => simp [ptrClosedOk] at h
    | chr c =>
      rw [show ptrClosedOk (.ptr p :: .chr c :: l2)
          = (!c.isDigit && ptrClosedOk (.chr c :: l2)) from rfl, Bool.and_eq_true] at h
      exact ⟨c, l2, rfl, by simpa using h.1, h.2⟩

theorem declTok_no_hash (i : Nat) : ∀ z ∈ ('@' :: (natDigits i ++ ['='])), z ≠ '#' := by
  intro z hz
  rcases List.mem_cons.mp hz with h | h
  · rw [h]; decide
  · rcases List.mem_append.mp h with h2 | h2
    · exact natDigits_mem_ne (by decide) z h2
    · simp at h2; rw [h2]; decide

theorem declTok_no_at (i : Nat) : ∀ z ∈ (natDigits i ++ ['=']), z ≠ '@' := by
  intro z hz
  rcases List.mem_append.mp hz with h2 | h2
  · exact natDigits_mem_ne (by decide) z h2
  · simp at h2; rw [h2]; decide

theorem declMatchesAux_none_digits : ∀ (ds : Str), (∀ c ∈ ds, c.isDigit = true) →
    ∀ (rest : Str), declMatchesAux none (ds ++ rest) = declMatchesAux none rest := by
  intro ds
  induction ds with
  | nil => intro _ rest; rfl
  | cons c ds' ih =>
    intro h rest
    have hc : c.isDigit = true := h c (by simp)
    have hca : c ≠ '@' := digitChar_mem_ne hc (by decide)
    rw [List.cons_append,
      show declMatchesAux none (c :: (ds' ++ rest)) = declMatchesAux none (ds' ++ rest) from by
        simp [declMatchesAux, hca],
      ih (fun z hz => h z (by simp [hz])) rest]

theorem declMatchesAux_some_digits : ∀ (ds : Str), (∀ c ∈ ds, c.isDigit = true) →
    ∀ (acc rest : Str),
    declMatchesAux (some acc) (ds ++ rest) = declMatchesAux (some (acc ++ ds)) rest := by
  intro ds
  induction ds with
  | nil => intro _ acc rest; simp
  | cons c ds' ih =>
    intro h acc rest
    have hc : c.isDigit = true := h c (by simp)
    rw [List.cons_append,
      show declMatchesAux (some acc) (c :: (ds' ++ rest))
        = declMatchesAux (some (acc ++ [c])) (ds' ++ rest) from by simp [declMatchesAux, hc],
      ih (fun z hz => h z (by simp [hz])) (acc ++ [c]) rest]
    simp only [List.append_assoc, List.singleton_append]

theorem ptrMatchesAux_none_digits : ∀ (ds : Str), (∀ c ∈ ds, c.isDigit = true) →
    ∀ (rest : Str), ptrMatchesAux none (ds ++ rest) = ptrMatchesAux none rest := by
  intro ds
  induction ds with
  | nil => intro _ rest; rfl
  | cons c ds' ih =>
    intro h rest
    have hc : c.isDigit = true := h c (by simp)
    have hch : c ≠ '#' := digitChar_mem_ne hc (by decide)
    rw [List.cons_append,
      show ptrMatchesAux none (c :: (ds' ++ rest)) = ptrMatchesAux none (ds' ++ rest) from by
        simp [ptrMatchesAux, hch],
      ih (fun z hz => h z (by simp [hz])) rest]

theorem ptrMatchesAux_some_digits : ∀ (ds : Str), (∀ c ∈ ds, c.isDigit = true) →
    ∀ (acc rest : Str),
    ptrMatchesAux (some acc) (ds ++ rest) = ptrMatchesAux (some (acc ++ ds)) rest := by
  intro ds
  induction ds with
  | nil => intro _ acc rest; simp
  | cons c ds' ih =>
    intro h acc rest
    have hc : c.isDigit = true := h c (by simp)
    rw [List.cons_append,
      show ptrMatchesAux (some acc) (c :: (ds' ++ rest))
        = ptrMatchesAux (some (acc ++ [c])) (ds' ++ rest) from by simp [ptrMatchesAux, hc],
      ih (fun z hz => h z (by simp [hz])) (acc ++ [c]) rest]
    simp only [List.append_assoc, List.singleton_append]

/-- On a flattening with escaped plain characters, the `@(\d+)=` matches
are exactly the declaration ids, in order. -/
theorem declMatches_flatten : ∀ (l : List Tok), chrOk l = true →
    declMatchesAux none (flatten l) = (declIds l).map natDigits := by
  intro l
  induction l with
  | nil => intro _; rfl
  | cons t rest ih =>
    intro h
    rw [chrOk_cons, Bool.and_eq_true] at h
    have ihr := ih h.2
    cases t with
    | decl i =>
      rw [flatten_cons, show flattenTok (.decl i) = '@' :: (natDigits i ++ ['=']) from rfl,
        List.cons_append,
        show declMatchesAux none ('@' :: ((natDigits i ++ ['=']) ++ flatten rest))
          = declMatchesAux (some []) ((natDigits i ++ ['=']) ++ flatten rest) from by
          simp [declMatchesAux],
        List.append_assoc, List.singleton_append,
        declMatchesAux_some_digits (natDigits i) (natDigits_all_digits i) [] ('=' :: flatten rest),
        show declMatchesAux (some ([] ++ natDigits i)) ('=' :: flatten rest)
          = natDigits i :: declMatchesAux none (flatten rest) from by
          simp [declMatchesAux, show ('=' : Char).isDigit = false from by decide,
            natDigits_ne_nil i],
        ihr]
      simp [declIds]
    | ptr p =>
      rw [flatten_cons, show flattenTok (.ptr p) = '#' :: natDigits p from rfl,
        List.cons_append,
        show declMatchesAux none ('#' :: (natDigits p ++ flatten rest))
          = declMatchesAux none (natDigits p ++ flatten rest) from by
          simp [declMatchesAux],
        declMatchesAux_none_digits (natDigits p) (natDigits_all_digits p) (flatten rest), ihr]
      simp [declIds]
    | chr c =>
      obtain ⟨hca, _, _⟩ := chrOk_chr_head (by rw [chrOk_cons, Bool.and_eq_true]; exact h)
      rw [flatten_cons, show flattenTok (.chr c) = [c] from rfl, List.singleton_append,
        show declMatchesAux none (c :: flatten rest) = declMatchesAux none (flatten rest) from by
          simp [declMatchesAux, hca],
        ihr]
      simp [declIds]

/-- On a flattening whose pointers are each followed by a non-digit
plain character, the `#\d+` matches are exactly the pointer ids. -/
theorem ptrMatches_flatten : ∀ (l : List Tok), chrOk l = true → ptrClosedOk l = true →
    ptrMatchesAux none (flatten l) = (ptrIds l).map natDigits := by
  intro l
  induction l with
  | nil => intro _ _; rfl
  | cons t rest ih =>
    intro h hp
    rw [chrOk_cons, Bool.and_eq_true] at h
    cases t with
    | decl i =>
      have hpr : ptrClosedOk rest = true := by
        rwa [ptrClosedOk_cons_nonptr (by simp) rest] at hp
      rw [flatten_cons, show flattenTok (.decl i) = '@' :: (natDigits i ++ ['=']) from rfl,
        List.cons_append,
        show ptrMatchesAux none ('@' :: ((natDigits i ++ ['=']) ++ flatten rest))
          = ptrMatchesAux none ((natDigits i ++ ['=']) ++ flatten rest) from by
          simp [ptrMatchesAux],
        List.append_assoc, List.singleton_append,
        ptrMatchesAux_none_digits (natDigits i) (natDigits_all_digits i) ('=' :: flatten rest),
        show ptrMatchesAux none ('=' :: flatten rest) = ptrMatchesAux none (flatten rest) from by
          simp [ptrMatchesAux],
        ih h.2 hpr]
      simp [ptrIds]
    | ptr p =>
      obtain ⟨c, l2, rfl, hcd, hrest⟩ := ptrClosedOk_ptr_destruct hp
      have hch : c ≠ '#' := (chrOk_chr_head h.2).2.1
      have ih2 := ih h.2 hrest
      rw [show flatten (Tok.chr c :: l2) = c :: flatten l2 from rfl,
        show ptrMatchesAux none (c :: flatten l2) = ptrMatchesAux none (flatten l2) from by
          simp [ptrMatchesAux, hch],
        show ptrIds (Tok.chr c :: l2) = ptrIds l2 from by simp [ptrIds]] at ih2
      rw [flatten_cons, show flattenTok (.ptr p) = '#' :: natDigits p from rfl,
        List.cons_append,
        show ptrMatchesAux none ('#' :: (natDigits p ++ flatten (Tok.chr c :: l2)))
          = ptrMatchesAux (some []) (natDigits p ++ flatten (Tok.chr c :: l2)) from by
          simp [ptrMatchesAux],
        ptrMatchesAux_some_digits (natDigits p) (natDigits_all_digits p) [] _,
        show flatten (Tok.chr c :: l2) = c :: flatten l2 from rfl,
        show ptrMatchesAux (some ([] ++ natDigits p)) (c :: flatten l2)
          = natDigits p :: ptrMatchesAux none (flatten l2) from by
          simp [ptrMatchesAux, hcd, hch, natDigits_ne_nil p],
        ih2]
      simp [ptrIds]
    | chr c =>
      have hpr : ptrClosedOk rest = true := by
        rwa [ptrClosedOk_cons_nonptr (by simp) rest] at hp
      obtain ⟨_, hch, _⟩ := chrOk_chr_head (by rw [chrOk_cons, Bool.and_eq_true]; exact h)
      rw [flatten_cons, show flattenTok (.chr c) = [c] from rfl, List.singleton_append,
        show ptrMatchesAux none (c :: flatten rest) = ptrMatchesAux none (flatten rest) from by
          simp [ptrMatchesAux, hch],
        ih h.2 hpr]
      simp [ptrIds]

/-- On a well-formed flattening, some `#<q>(\D)` match exists exactly
when `q` is among the pointer ids. -/
theorem hasPtrMatch_flatten : ∀ (l : List Tok), chrOk l = true → ptrClosedOk l = true →
    ∀ (q : Nat), hasPtrMatch (flatten l) (natDigits q) = decide (q ∈ ptrIds l) := by
  intro l
  induction l with
  | nil => intro _ _ q; simp [hasPtrMatch, ptrIds]
  | cons t rest ih =>
    intro h hp q
    rw [chrOk_cons, Bool.and_eq_true] at h
    cases t with
    | decl i =>
      have hpr : ptrClosedOk rest = true := by
        rwa [ptrClosedOk_cons_nonptr (by simp) rest] at hp
      rw [flatten_cons, show flattenTok (.decl i) = '@' :: (natDigits i ++ ['=']) from rfl,
        hasPtrMatch_append_no_hash ('@' :: (natDigits i ++ ['='])) (declTok_no_hash i) _ _,
        ih h.2 hpr q]
      simp [ptrIds]
    | ptr p =>
      obtain ⟨c, l2, rfl, hcd, hrest⟩ := ptrClosedOk_ptr_destruct hp
      have hch : c ≠ '#' := (chrOk_chr_head h.2).2.1
      have ih2 := ih h.2 hrest q
      rw [show flatten (Tok.chr c :: l2) = c :: flatten l2 from rfl] at ih2
      rw [flatten_cons, show flattenTok (.ptr p) = '#' :: natDigits p from rfl,
        List.cons_append,
        show flatten (Tok.chr c :: l2) = c :: flatten l2 from rfl,
        show hasPtrMatch ('#' :: (natDigits p ++ c :: flatten l2)) (natDigits q)
          = (ptrAt ('#' :: (natDigits p ++ c :: flatten l2)) (natDigits q)
            || hasPtrMatch (natDigits p ++ c :: flatten l2) (natDigits q)) from rfl,
        ptrAt_digit_run (natDigits q) (natDigits p) (natDigits_all_digits q)
          (natDigits_all_digits p) c hcd (flatten l2),
        hasPtrMatch_append_no_hash (natDigits p) (natDigits_mem_ne (by decide)) _ _,
        ih2,
        show (decide (natDigits q = natDigits p)) = decide (q = p) from by
          by_cases hqp : q = p
          · simp [hqp]
          · rw [decide_eq_false (fun hh => hqp (natDigits_injective hh)), decide_eq_false hqp]]
      rw [show ptrIds (Tok.ptr p :: Tok.chr c :: l2) = p :: ptrIds (Tok.chr c :: l2) from by
        simp [ptrIds]]
      by_cases h1 : q = p
      · simp [h1]
      · by_cases h2 : q ∈ ptrIds (Tok.chr c :: l2) <;> simp [h1, h2]
    | chr c =>
      have hpr : ptrClosedOk rest = true := by
        rwa [ptrClosedOk_cons_nonptr (by simp) rest] at hp
      obtain ⟨_, hch, _⟩ := chrOk_chr_head (by rw [chrOk_cons, Bool.and_eq_true]; exact h)
      rw [flatten_cons, show flattenTok (.chr c) = [c] from rfl, List.singleton_append,
        hasPtrMatch_cons_false (ptrAt_false_of_ne hch _ _), ih h.2 hpr q]
      simp [ptrIds]

theorem declIds_cons_decl (i : Nat) (l : List Tok) :
    declIds (.decl i :: l) = i :: declIds l := by
  simp [declIds]

theorem declIds_cons_other {t : Tok} (ht : ∀ i, t ≠ .decl i) (l : List Tok) :
    declIds (t :: l) = declIds l := by
  cases t with
  | decl i => exact absurd rfl (ht i)
  | ptr p => simp [declIds]
  | chr c => simp [declIds]

theorem ptrIds_cons_ptr (p : Nat) (l : List Tok) :
    ptrIds (.ptr p :: l) = p :: ptrIds l := by
  simp [ptrIds]

theorem ptrIds_cons_other {t : Tok} (ht : ∀ p, t ≠ .ptr p) (l : List Tok) :
    ptrIds (t :: l) = ptrIds l := by
  cases t with
  | decl i => simp [ptrIds]
  | ptr p => exact absurd rfl (ht p)
  | chr c => simp [ptrIds]

theorem ptrTok_no_at (p : Nat) : ∀ z ∈ ('#' :: natDigits p), z ≠ '@' := by
  intro z hz
  rcases List.mem_cons.mp hz with h | h
  · rw [h]; decide
  · exact natDigits_mem_ne (by decide) z h

/-- `replaceFirst` for declaration `j` steps over the flattening of a
token list containing no declaration with id `j`. -/
theorem replaceFirst_flatten_no_decl (j : Nat) (rep : Str) : ∀ (A : List Tok),
    chrOk A = true → (∀ d ∈ declIds A, d ≠ j) → ∀ (rest : Str),
    replaceFirst (flatten A ++ rest) ('@' :: (natDigits j ++ ['='])) rep
      = flatten A ++ replaceFirst rest ('@' :: (natDigits j ++ ['='])) rep := by
  intro A
  induction A with
  | nil => intro _ _ rest; simp [flatten]
  | cons t A' ih =>
    intro h hd rest
    rw [chrOk_cons, Bool.and_eq_true] at h
    cases t with
    | decl e =>
      have he : e ≠ j := hd e (by rw [declIds_cons_decl]; simp)
      have ih' := ih h.2 (fun d hdm => hd d (by rw [declIds_cons_decl]; simp [hdm])) rest
      rw [flatten_cons, show flattenTok (.decl e) = '@' :: (natDigits e ++ ['=']) from rfl,
        List.append_assoc, replaceFirst_decl_skip j e he rep (flatten A' ++ rest), ih']
      simp
    | ptr p =>
      have ih' := ih h.2
        (fun d hdm => hd d (by rw [declIds_cons_other (by simp)]; exact hdm)) rest
      rw [flatten_cons, show flattenTok (.ptr p) = '#' :: natDigits p from rfl,
        List.append_assoc,
        replaceFirst_append_no_at ('#' :: natDigits p) (ptrTok_no_at p) (flatten A' ++ rest),
        ih']
      simp
    | chr c =>
      have h1 := h.1
      simp [chrOkTok] at h1
      have ih' := ih h.2
        (fun d hdm => hd d (by rw [declIds_cons_other (by simp)]; exact hdm)) rest
      rw [flatten_cons, show flattenTok (.chr c) = [c] from rfl,
        List.append_assoc,
        replaceFirst_append_no_at [c] (by intro z hz; simp at hz; rw [hz]; exact h1.1)
          (flatten A' ++ rest),
        ih']
      simp

/-- Global pointer renumbering on a well-formed flattening acts
tokenwise. -/
theorem replacePtrGlobal_flatten : ∀ (l : List Tok), chrOk l = true → ptrClosedOk l = true →
    ∀ (q m : Nat), replacePtrGlobal (flatten l) (natDigits q) (natDigits m)
      = flatten (l.map (ptrRename q m)) := by
  intro l
  induction l with
  | nil => intro _ _ q m; rfl
  | cons t rest ih =>
    intro h hp q m
    rw [chrOk_cons, Bool.and_eq_true] at h
    cases t with
    | decl i =>
      have hpr : ptrClosedOk rest = true := by
        rwa [ptrClosedOk_cons_nonptr (by simp) rest] at hp
      rw [flatten_cons, show flattenTok (.decl i) = '@' :: (natDigits i ++ ['=']) from rfl,
        replacePtrGlobal_append_no_hash ('@' :: (natDigits i ++ ['='])) (declTok_no_hash i)
          (flatten rest) (natDigits q) (natDigits m),
        ih h.2 hpr q m]
      rfl
    | chr c =>
      have hpr : ptrClosedOk rest = true := by
        rwa [ptrClosedOk_cons_nonptr (by simp) rest] at hp
      have h1 := h.1
      simp [chrOkTok] at h1
      rw [flatten_cons, show flattenTok (.chr c) = [c] from rfl, List.singleton_append,
        replacePtrGlobal_cons_no_match (ptrAt_false_of_ne h1.2 _ _), ih h.2 hpr q m]
      rfl
    | ptr p =>
      obtain ⟨c, l2, rfl, hcd, hrest⟩ := ptrClosedOk_ptr_destruct hp
      have hch : c ≠ '#' := (chrOk_chr_head h.2).2.1
      have ih2 := ih h.2 hrest q m
      rw [show flatten (Tok.chr c :: l2) = c :: flatten l2 from rfl,
        replacePtrGlobal_cons_no_match (ptrAt_false_of_ne hch _ _),
        show flatten ((Tok.chr c :: l2).map (ptrRename q m))
          = c :: flatten (l2.map (ptrRename q m)) from rfl] at ih2
      injection ih2 with _ ih3
      by_cases hqp : q = p
      · subst hqp
        rw [flatten_cons, show flattenTok (.ptr q) = '#' :: natDigits q from rfl,
          List.cons_append,
          show flatten (Tok.chr c :: l2) = c :: flatten l2 from rfl,
          replacePtrGlobal_ptr_hit q m c hcd (flatten l2), ih3,
          show (Tok.ptr q :: Tok.chr c :: l2).map (ptrRename q m)
            = Tok.ptr m :: Tok.chr c :: l2.map (ptrRename q m) from by simp [ptrRename],
          flatten_cons, show flattenTok (.ptr m) = '#' :: natDigits m from rfl,
          flatten_cons, show flattenTok (.chr c) = [c] from rfl]
        simp
      · have hat : ptrAt ('#' :: (natDigits p ++ c :: flatten l2)) (natDigits q) = false := by
          rw [ptrAt_digit_run (natDigits q) (natDigits p) (natDigits_all_digits q)
            (natDigits_all_digits p) c hcd (flatten l2)]
          exact decide_eq_false (fun hh => hqp (natDigits_injective hh))
        rw [flatten_cons, show flattenTok (.ptr p) = '#' :: natDigits p from rfl,
          List.cons_append,
          show flatten (Tok.chr c :: l2) = c :: flatten l2 from rfl,
          replacePtrGlobal_cons_no_match hat,
          replacePtrGlobal_append_no_hash (natDigits p) (natDigits_mem_ne (by decide))
            (c :: flatten l2) (natDigits q) (natDigits m),
          replacePtrGlobal_cons_no_match (ptrAt_false_of_ne hch _ _), ih3,
          show (Tok.ptr p :: Tok.chr c :: l2).map (ptrRename q m)
            = Tok.ptr p :: Tok.chr c :: l2.map (ptrRename q m) from by
            simp [ptrRename, show p ≠ q from fun hh => hqp hh.symm],
          flatten_cons, show flattenTok (.ptr p) = '#' :: natDigits p from rfl,
          flatten_cons, show flattenTok (.chr c) = [c] from rfl]
        simp

theorem cnt_zero (K : Nat → Bool) : cnt K 0 = 0 := rfl

theorem cnt_succ (K : Nat → Bool) (j : Nat) :
    cnt K (j + 1) = cnt K j + (if K j then 1 else 0) := by
  rw [cnt, List.range_succ, List.filter_append]
  cases hK : K j <;> simp [cnt, hK]

theorem cnt_le (K : Nat → Bool) (j : Nat) : cnt K j ≤ j := by
  have h := List.length_filter_le K (List.range j)
  simpa [cnt] using h

theorem transform_cons (K : Nat → Bool) (j : Nat) (t : Tok) (l : List Tok) :
    transform K j (t :: l) = tokMap K j t ++ transform K j l := by
  simp [transform]

theorem transform_append (K : Nat → Bool) (j : Nat) (a b : List Tok) :
    transform K j (a ++ b) = transform K j a ++ transform K j b := by
  simp [transform]

/-- At stage `0` nothing has been renamed or removed yet. -/
theorem transform_zero (K : Nat → Bool) : ∀ (l : List Tok), transform K 0 l = l := by
  intro l
  induction l with
  | nil => rfl
  | cons t rest ih =>
    rw [transform_cons, ih]
    cases t with
    | decl d => simp [tokMap]
    | ptr p => simp [tokMap]
    | chr c => simp [tokMap]

theorem declIds_append (a b : List Tok) : declIds (a ++ b) = declIds a ++ declIds b := by
  simp [declIds]

theorem ptrIds_append (a b : List Tok) : ptrIds (a ++ b) = ptrIds a ++ ptrIds b := by
  simp [ptrIds]

theorem declIds_transform (K : Nat → Bool) (j : Nat) : ∀ (l : List Tok),
    declIds (transform K j l)
      = (declIds l).filterMap
          (fun d => if d < j then (if K d then some (cnt K d) else none) else some d) := by
  intro l
  induction l with
  | nil => rfl
  | cons t rest ih =>
    rw [transform_cons, declIds_append, ih]
    cases t with
    | decl d =>
      rw [declIds_cons_decl, List.filterMap_cons]
      by_cases hd : d < j
      · by_cases hK : K d = true
        · rw [show tokMap K j (.decl d) = [.decl (cnt K d)] from by simp [tokMap, hd, hK]]
          simp [declIds, hd, hK]
        · rw [show tokMap K j (.decl d) = [] from by simp [tokMap, hd, hK]]
          simp [declIds, hd, hK]
      · rw [show tokMap K j (.decl d) = [.decl d] from by simp [tokMap, hd]]
        simp [declIds, hd]
    | ptr p =>
      rw [show declIds (tokMap K j (.ptr p)) = [] from by
          by_cases hp2 : p < j <;> simp [tokMap, hp2, declIds],
        declIds_cons_other (by simp), List.nil_append]
    | chr c =>
      rw [show declIds (tokMap K j (.chr c)) = [] from by simp [tokMap, declIds],
        declIds_cons_other (by simp), List.nil_append]

theorem ptrIds_transform (K : Nat → Bool) (j : Nat) : ∀ (l : List Tok),
    ptrIds (transform K j l) = (ptrIds l).map (fun p => if p < j then cnt K p else p) := by
  intro l
  induction l with
  | nil => rfl
  | cons t rest ih =>
    rw [transform_cons, ptrIds_append, ih]
    cases t with
    | decl d =>
      rw [show ptrIds (tokMap K j (.decl d)) = [] from by
          by_cases hd : d < j
          · by_cases hK : K d = true <;> simp [tokMap, hd, hK, ptrIds]
          · simp [tokMap, hd, ptrIds],
        ptrIds_cons_other (by simp), List.nil_append]
    | ptr p =>
      rw [show ptrIds (tokMap K j (.ptr p)) = [if p < j then cnt K p else p] from by
          by_cases hp2 : p < j <;> simp [tokMap, hp2, ptrIds],
        ptrIds_cons_ptr, List.map_cons]
      simp
    | chr c =>
      rw [show ptrIds (tokMap K j (.chr c)) = [] from by simp [tokMap, ptrIds],
        ptrIds_cons_other (by simp), List.nil_append]

theorem chrOk_transform (K : Nat → Bool) (j : Nat) : ∀ (l : List Tok),
    chrOk l = true → chrOk (transform K j l) = true := by
  intro l
  induction l with
  | nil => intro _; rfl
  | cons t rest ih =>
    intro h
    rw [chrOk_cons, Bool.and_eq_true] at h
    rw [transform_cons, chrOk_append, Bool.and_eq_true]
    refine ⟨?_, ih h.2⟩
    cases t with
    | decl d =>
      by_cases hd : d < j
      · by_cases hK : K d = true <;> simp [tokMap, hd, hK, chrOk, chrOkTok]
      · simp [tokMap, hd, chrOk, chrOkTok]
    | ptr p => by_cases hp2 : p < j <;> simp [tokMap, hp2, chrOk, chrOkTok]
    | chr c =>
      have h1 := h.1
      simp [tokMap, chrOk]
      exact h1

theorem ptrClosedOk_transform (K : Nat → Bool) (j : Nat) : ∀ (l : List Tok),
    ptrClosedOk l = true → ptrClosedOk (transform K j l) = true := by
  intro l
  induction l with
  | nil => intro _; rfl
  | cons t rest ih =>
    intro hp
    cases t with
    | decl d =>
      have hpr : ptrClosedOk rest = true := by
        rwa [ptrClosedOk_cons_nonptr (by simp) rest] at hp
      rw [transform_cons]
      by_cases hd : d < j
      · by_cases hK : K d = true
        · rw [show tokMap K j (.decl d) = [.decl (cnt K d)] from by simp [tokMap, hd, hK],
            List.singleton_append, ptrClosedOk_cons_nonptr (by simp) _]
          exact ih hpr
        · rw [show tokMap K j (.decl d) = [] from by simp [tokMap, hd, hK], List.nil_append]
          exact ih hpr
      · rw [show tokMap K j (.decl d) = [.decl d] from by simp [tokMap, hd],
          List.singleton_append, ptrClosedOk_cons_nonptr (by simp) _]
        exact ih hpr
    | chr c =>
      have hpr : ptrClosedOk rest = true := by
        rwa [ptrClosedOk_cons_nonptr (by simp) rest] at hp
      rw [transform_cons, show tokMap K j (.chr c) = [.chr c] from rfl,
        List.singleton_append, ptrClosedOk_cons_nonptr (by simp) _]
      exact ih hpr
    | ptr p =>
      obtain ⟨c, l2, rfl, hcd, hrest⟩ := ptrClosedOk_ptr_destruct hp
      have hsplit2 : transform K j (Tok.chr c :: l2) = .chr c :: transform K j l2 := by
        rw [transform_cons]; rfl
      have ih2 := ih hrest
      rw [hsplit2] at ih2
      rw [transform_cons, hsplit2,
        show tokMap K j (.ptr p) = [.ptr (if p < j then cnt K p else p)] from by
          by_cases hp2 : p < j <;> simp [tokMap, hp2],
        List.singleton_append,
        show ptrClosedOk (.ptr (if p < j then cnt K p else p) :: .chr c :: transform K j l2)
          = (!c.isDigit && ptrClosedOk (.chr c :: transform K j l2)) from rfl,
        hcd, ih2]
      rfl

/-- `ptrClosedOk` does not depend on the id carried by a declaration. -/
theorem ptrClosedOk_decl_subst (i i' : Nat) : ∀ (X Y : List Tok),
    ptrClosedOk (X ++ .decl i :: Y) = ptrClosedOk (X ++ .decl i' :: Y) := by
  intro X
  induction X with
  | nil =>
    intro Y
    rw [List.nil_append, List.nil_append, ptrClosedOk_cons_nonptr (by simp) Y,
      ptrClosedOk_cons_nonptr (by simp) Y]
  | cons t X' ih =>
    intro Y
    cases t with
    | decl e =>
      rw [List.cons_append, List.cons_append, ptrClosedOk_cons_nonptr (by simp) _,
        ptrClosedOk_cons_nonptr (by simp) _, ih Y]
    | chr c =>
      rw [List.cons_append, List.cons_append, ptrClosedOk_cons_nonptr (by simp) _,
        ptrClosedOk_cons_nonptr (by simp) _, ih Y]
    | ptr p =>
      rw [List.cons_append, List.cons_append]
      cases X' with
      | nil =>
        rw [List.nil_append, List.nil_append,
          show ptrClosedOk (.ptr p :: .decl i :: Y) = (false && ptrClosedOk (.decl i :: Y)) from rfl,
          show ptrClosedOk (.ptr p :: .decl i' :: Y) = (false && ptrClosedOk (.decl i' :: Y)) from rfl]
        simp
      | cons u X'' =>
        rw [List.cons_append, List.cons_append]
        cases u with
        | decl e =>
          rw [show ptrClosedOk (.ptr p :: .decl e :: (X'' ++ .decl i :: Y))
              = (false && ptrClosedOk (.decl e :: (X'' ++ .decl i :: Y))) from rfl,
            show ptrClosedOk (.ptr p :: .decl e :: (X'' ++ .decl i' :: Y))
              = (false && ptrClosedOk (.decl e :: (X'' ++ .decl i' :: Y))) from rfl]
          simp
        | ptr q =>
          rw [show ptrClosedOk (.ptr p :: .ptr q :: (X'' ++ .decl i :: Y))
              = (false && ptrClosedOk (.ptr q :: (X'' ++ .decl i :: Y))) from rfl,
            show ptrClosedOk (.ptr p :: .ptr q :: (X'' ++ .decl i' :: Y))
              = (false && ptrClosedOk (.ptr q :: (X'' ++ .decl i' :: Y))) from rfl]
          simp
        | chr c =>
          rw [show ptrClosedOk (.ptr p :: .chr c :: (X'' ++ .decl i :: Y))
              = (!c.isDigit && ptrClosedOk (.chr c :: (X'' ++ .decl i :: Y))) from rfl,
            show ptrClosedOk (.ptr p :: .chr c :: (X'' ++ .decl i' :: Y))
              = (!c.isDigit && ptrClosedOk (.chr c :: (X'' ++ .decl i' :: Y))) from rfl]
          have hX : ptrClosedOk (Tok.chr c :: (X'' ++ .decl i :: Y))
              = ptrClosedOk (Tok.chr c :: (X'' ++ .decl i' :: Y)) := by
            rw [@ptrClosedOk_cons_nonptr (Tok.chr c) (by simp) (X'' ++ Tok.decl i :: Y),
              @ptrClosedOk_cons_nonptr (Tok.chr c) (by simp) (X'' ++ Tok.decl i' :: Y)]
            have h2 := ih Y
            simp only [List.cons_append] at h2
            rw [@ptrClosedOk_cons_nonptr (Tok.chr c) (by simp) (X'' ++ Tok.decl i :: Y),
              @ptrClosedOk_cons_nonptr (Tok.chr c) (by simp) (X'' ++ Tok.decl i' :: Y)] at h2
            exact h2
          rw [hX]

theorem filterMap_congr_own {α β : Type} (f g : α → Option β) : ∀ (l : List α),
    (∀ a ∈ l, f a = g a) → l.filterMap f = l.filterMap g := by
  intro l
  induction l with
  | nil => intro _; rfl
  | cons a l ih =>
    intro h
    rw [List.filterMap_cons, List.filterMap_cons, h a (by simp),
      ih (fun x hx => h x (by simp [hx]))]

theorem tokMap_step_kept (K : Nat → Bool) (j : Nat) (t : Tok) (hd : t ≠ .decl j) :
    (tokMap K j t).map (ptrRename j (cnt K j)) = tokMap K (j + 1) t := by
  cases t with
  | decl d =>
    have hdj : d ≠ j := fun hh => hd (by rw [hh])
    by_cases h1 : d < j
    · have h2 : d < j + 1 := by omega
      by_cases hK : K d = true <;> simp [tokMap, h1, h2, hK, ptrRename]
    · have h2 : ¬ d < j + 1 := by omega
      simp [tokMap, h1, h2, ptrRename]
  | ptr p =>
    by_cases h1 : p < j
    · have h2 : p < j + 1 := by omega
      have h3 : cnt K p ≠ j := by have := cnt_le K p; omega
      simp [tokMap, h1, h2, ptrRename, h3]
    · by_cases hpj : p = j
      · subst hpj
        simp [tokMap, ptrRename, h1, show p < p + 1 from by omega]
      · have h2 : ¬ p < j + 1 := by omega
        simp [tokMap, h1, h2, ptrRename, hpj]
  | chr c => rfl

theorem tokMap_step_dropped (K : Nat → Bool) (j : Nat) (t : Tok)
    (hd : t ≠ .decl j) (hp : t ≠ .ptr j) :
    tokMap K j t = tokMap K (j + 1) t := by
  cases t with
  | decl d =>
    have hdj : d ≠ j := fun hh => hd (by rw [hh])
    by_cases h1 : d < j
    · have h2 : d < j + 1 := by omega
      by_cases hK : K d = true <;> simp [tokMap, h1, h2, hK]
    · have h2 : ¬ d < j + 1 := by omega
      simp [tokMap, h1, h2]
  | ptr p =>
    have hpj : p ≠ j := fun hh => hp (by rw [hh])
    by_cases h1 : p < j
    · have h2 : p < j + 1 := by omega
      simp [tokMap, h1, h2]
    · have h2 : ¬ p < j + 1 := by omega
      simp [tokMap, h1, h2]
  | chr c => rfl

theorem tokMap_decl_self_kept (K : Nat → Bool) (j : Nat) (hK : K j = true) :
    tokMap K (j + 1) (.decl j) = [.decl (cnt K j)] := by
  simp [tokMap, hK, show j < j + 1 from by omega]

theorem tokMap_decl_self_dropped (K : Nat → Bool) (j : Nat) (hK : K j = false) :
    tokMap K (j + 1) (.decl j) = [] := by
  simp [tokMap, hK, show j < j + 1 from by omega]

theorem transform_map_step_kept (K : Nat → Bool) (j : Nat) : ∀ (l : List Tok),
    (∀ d ∈ declIds l, d ≠ j) →
    (transform K j l).map (ptrRename j (cnt K j)) = transform K (j + 1) l := by
  intro l
  induction l with
  | nil => intro _; rfl
  | cons t rest ih =>
    intro hd
    have ht : t ≠ .decl j := by
      cases t with
      | decl d =>
        have : d ≠ j := hd d (by rw [declIds_cons_decl]; simp)
        simpa using this
      | ptr p => simp
      | chr c => simp
    have hd' : ∀ d ∈ declIds rest, d ≠ j := by
      intro d hdm
      refine hd d ?_
      cases t with
      | decl i => rw [declIds_cons_decl]; simp [hdm]
      | ptr p => rw [declIds_cons_other (by simp)]; exact hdm
      | chr c => rw [declIds_cons_other (by simp)]; exact hdm
    rw [transform_cons, List.map_append, tokMap_step_kept K j t ht, ih hd', transform_cons]

theorem transform_step_dropped (K : Nat → Bool) (j : Nat) : ∀ (l : List Tok),
    (∀ d ∈ declIds l, d ≠ j) → (∀ p ∈ ptrIds l, p ≠ j) →
    transform K j l = transform K (j + 1) l := by
  intro l
  induction l with
  | nil => intro _ _; rfl
  | cons t rest ih =>
    intro hd hp
    have ht : t ≠ .decl j := by
      cases t with
      | decl d =>
        have : d ≠ j := hd d (by rw [declIds_cons_decl]; simp)
        simpa using this
      | ptr p => simp
      | chr c => simp
    have ht2 : t ≠ .ptr j := by
      cases t with
      | decl d => simp
      | ptr p =>
        have : p ≠ j := hp p (by rw [ptrIds_cons_ptr]; simp)
        simpa using this
      | chr c => simp
    have hd' : ∀ d ∈ declIds rest, d ≠ j := by
      intro d hdm
      refine hd d ?_
      cases t with
      | decl i => rw [declIds_cons_decl]; simp [hdm]
      | ptr p => rw [declIds_cons_other (by simp)]; exact hdm
      | chr c => rw [declIds_cons_other (by simp)]; exact hdm
    have hp' : ∀ p ∈ ptrIds rest, p ≠ j := by
      intro p hpm
      refine hp p ?_
      cases t with
      | decl i => rw [ptrIds_cons_other (by simp)]; exact hpm
      | ptr q => rw [ptrIds_cons_ptr]; simp [hpm]
      | chr c => rw [ptrIds_cons_other (by simp)]; exact hpm
    rw [transform_cons, tokMap_step_dropped K j t ht ht2, ih hd' hp', transform_cons]

/-- Split a token list at the declaration whose id occupies a given
place in its declaration-id list. -/
theorem declIds_split : ∀ (l : List Tok) (L1 : List Nat) (j : Nat) (L2 : List Nat),
    declIds l = L1 ++ j :: L2 →
    ∃ a b, l = a ++ .decl j :: b ∧ declIds a = L1 ∧ declIds b = L2 := by
  intro l
  induction l with
  | nil =>
    intro L1 j L2 h
    rw [show declIds [] = [] from rfl] at h
    cases L1 <;> simp at h
  | cons t rest ih =>
    intro L1 j L2 h
    cases t with
    | decl i =>
      rw [declIds_cons_decl] at h
      cases L1 with
      | nil =>
        simp at h
        exact ⟨[], rest, by rw [h.1]; rfl, rfl, h.2⟩
      | cons x L1' =>
        simp at h
        obtain ⟨a, b, hab, ha, hb⟩ := ih L1' j L2 h.2
        exact ⟨.decl i :: a, b, by rw [hab]; rfl,
          by rw [declIds_cons_decl, ha, h.1], hb⟩
    | ptr p =>
      rw [declIds_cons_other (by simp)] at h
      obtain ⟨a, b, hab, ha, hb⟩ := ih L1 j L2 h
      exact ⟨.ptr p :: a, b, by rw [hab]; rfl,
        by rw [declIds_cons_other (by simp)]; exact ha, hb⟩
    | chr c =>
      rw [declIds_cons_other (by simp)] at h
      obtain ⟨a, b, hab, ha, hb⟩ := ih L1 j L2 h
      exact ⟨.chr c :: a, b, by rw [hab]; rfl,
        by rw [declIds_cons_other (by simp)]; exact ha, hb⟩

theorem range_split_at : ∀ (n j : Nat), j < n →
    List.range n = List.range j ++ j :: List.range' (j + 1) (n - (j + 1)) := by
  intro n
  induction n with
  | zero => intro j hj; omega
  | succ n ih =>
    intro j hj
    by_cases hjn : j = n
    · subst hjn
      rw [List.range_succ, show j + 1 - (j + 1) = 0 from by omega]
      rfl
    · have hj2 : j < n := by omega
      rw [List.range_succ, ih j hj2,
        show n + 1 - (j + 1) = (n - (j + 1)) + 1 from by omega,
        List.range'_1_concat (j + 1) (n - (j + 1)),
        show (j + 1) + (n - (j + 1)) = n from by omega]
      simp

theorem cleanStep_pos {s : Str} {k : Nat} {ds : Str} (h : hasPtrMatch s ds = true) :
    cleanStep (s, k) ds
      = (replacePtrGlobal (replaceFirst s ('@' :: (ds ++ ['='])) ('@' :: (natDigits k ++ ['='])))
          ds (natDigits k), k + 1) := by
  unfold cleanStep
  rw [if_pos h]

theorem cleanStep_neg {s : Str} {k : Nat} {ds : Str} (h : hasPtrMatch s ds = false) :
    cleanStep (s, k) ds = (replaceFirst s ('@' :: (ds ++ ['='])) [], k) := by
  unfold cleanStep
  rw [if_neg (by rw [h]; exact Bool.false_ne_true)]

/-- One `clean` iteration, processing declaration id `j`, carries the
string from stage `j` to stage `j + 1` of the token-level picture and
keeps the compaction counter in sync. -/
theorem cleanStep_stage (l : List Tok) (hchr : chrOk l = true) (hptr : ptrClosedOk l = true)
    (n : Nat) (hdecl : declIds l = List.range n) (j : Nat) (hj : j < n) :
    cleanStep (flatten (transform (keepSet l) j l), cnt (keepSet l) j) (natDigits j)
      = (flatten (transform (keepSet l) (j + 1) l), cnt (keepSet l) (j + 1)) := by
  generalize hKK : keepSet l = K
  have hKspec : ∀ x, K x = decide (x ∈ ptrIds l) := fun x => by rw [← hKK]; rfl
  have hchrT : chrOk (transform K j l) = true := chrOk_transform _ _ l hchr
  have hptrT : ptrClosedOk (transform K j l) = true := ptrClosedOk_transform _ _ l hptr
  have hmem : (j ∈ ptrIds (transform K j l)) ↔ j ∈ ptrIds l := by
    rw [ptrIds_transform]
    constructor
    · intro hmem
      obtain ⟨p, hp, hfp⟩ := List.mem_map.mp hmem
      have hfp' : (if p < j then cnt K p else p) = j := hfp
      by_cases h1 : p < j
      · rw [if_pos h1] at hfp'
        have := cnt_le K p
        exfalso
        omega
      · rw [if_neg h1] at hfp'
        subst hfp'
        exact hp
    · intro hmem
      refine List.mem_map.mpr ⟨j, hmem, ?_⟩
      simp
  have hmatch : hasPtrMatch (flatten (transform K j l)) (natDigits j) = K j := by
    rw [hasPtrMatch_flatten _ hchrT hptrT j, hKspec j]
    by_cases hmm : j ∈ ptrIds l
    · rw [decide_eq_true (hmem.mpr hmm), decide_eq_true hmm]
    · rw [decide_eq_false (fun hh => hmm (hmem.mp hh)), decide_eq_false hmm]
  obtain ⟨a, b, hl, ha, hb⟩ := declIds_split l (List.range j) j
    (List.range' (j + 1) (n - (j + 1))) (by rw [hdecl, range_split_at n j hj])
  have haj : ∀ d ∈ declIds a, d ≠ j := by
    intro d hd
    rw [ha] at hd
    have := List.mem_range.mp hd
    omega
  have hbj : ∀ d ∈ declIds b, d ≠ j := by
    intro d hd
    rw [hb] at hd
    obtain ⟨i, hi, hdi⟩ := List.mem_range'.mp hd
    omega
  have hTsplit : transform K j l = transform K j a ++ .decl j :: transform K j b := by
    rw [hl, transform_append, transform_cons,
      show tokMap K j (.decl j) = [.decl j] from by simp [tokMap], List.singleton_append]
  have hchrA : chrOk (transform K j a) = true := by
    have h0 := hchrT
    rw [hTsplit, chrOk_append, Bool.and_eq_true] at h0
    exact h0.1
  have hdaj : ∀ d ∈ declIds (transform K j a), d ≠ j := by
    intro d hd
    rw [declIds_transform] at hd
    obtain ⟨d0, hd0, hfd⟩ := List.mem_filterMap.mp hd
    have hd0j : d0 < j := by
      rw [ha] at hd0
      exact List.mem_range.mp hd0
    have hfd' : (if d0 < j then (if K d0 then some (cnt K d0) else none) else some d0)
        = some d := hfd
    rw [if_pos hd0j] at hfd'
    by_cases hKd : K d0 = true
    · rw [if_pos hKd] at hfd'
      have h2 := Option.some.inj hfd'
      have := cnt_le K d0
      omega
    · rw [if_neg hKd] at hfd'
      simp at hfd'
  by_cases hKj : K j = true
  · rw [cleanStep_pos (by rw [hmatch]; exact hKj)]
    rw [hTsplit, flatten_append, flatten_cons,
      show flattenTok (.decl j) = '@' :: (natDigits j ++ ['=']) from rfl,
      replaceFirst_flatten_no_decl j ('@' :: (natDigits (cnt K j) ++ ['=']))
        (transform K j a) hchrA hdaj
        (('@' :: (natDigits j ++ ['='])) ++ flatten (transform K j b)),
      replaceFirst_hit ('@' :: (natDigits j ++ ['=']))
        (flatten (transform K j b)) ('@' :: (natDigits (cnt K j) ++ ['='])) (by simp),
      show ('@' :: (natDigits (cnt K j) ++ ['=']))
        = flattenTok (.decl (cnt K j)) from rfl,
      ← flatten_cons, ← flatten_append]
    have hchrM : chrOk (transform K j a ++ .decl (cnt K j) :: transform K j b) = true := by
      have h0 := hchrT
      rw [hTsplit] at h0
      rw [chrOk_append, Bool.and_eq_true] at h0 ⊢
      refine ⟨h0.1, ?_⟩
      have h1 := h0.2
      rw [chrOk_cons, Bool.and_eq_true] at h1 ⊢
      exact ⟨rfl, h1.2⟩
    have hptrM : ptrClosedOk (transform K j a ++ .decl (cnt K j) :: transform K j b)
        = true := by
      have h0 := hptrT
      rw [hTsplit] at h0
      rw [ptrClosedOk_decl_subst (cnt K j) j]
      exact h0
    rw [replacePtrGlobal_flatten _ hchrM hptrM j (cnt K j)]
    have hT1 : transform K (j + 1) l
        = transform K (j + 1) a ++ .decl (cnt K j) :: transform K (j + 1) b := by
      rw [hl, transform_append, transform_cons, tokMap_decl_self_kept K j hKj,
        List.singleton_append]
    have hmap : (transform K j a ++ .decl (cnt K j) :: transform K j b).map
          (ptrRename j (cnt K j))
        = transform K (j + 1) l := by
      rw [List.map_append, List.map_cons,
        transform_map_step_kept K j a haj,
        transform_map_step_kept K j b hbj,
        show ptrRename j (cnt K j) (.decl (cnt K j)) = .decl (cnt K j) from rfl, hT1]
    rw [hmap, show cnt K (j + 1) = cnt K j + 1 from by rw [cnt_succ, if_pos hKj]]
  · have hKj' : K j = false := by
      cases hK2 : K j
      · rfl
      · exact absurd hK2 hKj
    have hnotin : j ∉ ptrIds l := by
      have := hKspec j
      rw [hKj'] at this
      exact of_decide_eq_false this.symm
    have hpaj : ∀ p ∈ ptrIds a, p ≠ j := by
      intro p hp0 hpj
      subst hpj
      refine hnotin ?_
      rw [hl, ptrIds_append]
      exact List.mem_append.mpr (Or.inl hp0)
    have hpbj : ∀ p ∈ ptrIds b, p ≠ j := by
      intro p hp0 hpj
      subst hpj
      refine hnotin ?_
      rw [hl, ptrIds_append]
      refine List.mem_append.mpr (Or.inr ?_)
      rw [ptrIds_cons_other (by simp)]
      exact hp0
    rw [cleanStep_neg (by rw [hmatch]; exact hKj')]
    rw [hTsplit, flatten_append, flatten_cons,
      show flattenTok (.decl j) = '@' :: (natDigits j ++ ['=']) from rfl,
      replaceFirst_flatten_no_decl j [] (transform K j a) hchrA hdaj
        (('@' :: (natDigits j ++ ['='])) ++ flatten (transform K j b)),
      replaceFirst_hit ('@' :: (natDigits j ++ ['='])) (flatten (transform K j b)) []
        (by simp),
      List.nil_append, ← flatten_append]
    have hT0 : transform K (j + 1) l = transform K j a ++ transform K j b := by
      rw [hl, transform_append, transform_cons, tokMap_decl_self_dropped K j hKj',
        List.nil_append, transform_step_dropped K j a haj hpaj,
        transform_step_dropped K j b hbj hpbj]
    rw [← hT0, show cnt K (j + 1) = cnt K j from by
      rw [cnt_succ, if_neg (by rw [hKj']; exact Bool.false_ne_true)]
      omega]

/-- Iterating `clean`'s per-declaration processing from stage `j`
through all remaining declaration ids lands at stage `n`. -/
theorem clean_fold_stages (l : List Tok) (hchr : chrOk l = true) (hptr : ptrClosedOk l = true)
    (n : Nat) (hdecl : declIds l = List.range n) :
    ∀ (m j : Nat), j + m = n →
    List.foldl cleanStep (flatten (transform (keepSet l) j l), cnt (keepSet l) j)
        ((List.range' j m).map natDigits)
      = (flatten (transform (keepSet l) n l), cnt (keepSet l) n) := by
  intro m
  induction m with
  | zero =>
    intro j hj
    have hjn : j = n := by omega
    subst hjn
    rfl
  | succ m ih =>
    intro j hj
    rw [List.range'_succ j m 1, List.map_cons, List.foldl_cons,
      cleanStep_stage l hchr hptr n hdecl j (by omega), ih (j + 1) (by omega)]

theorem filterMap_cnt_range (K : Nat → Bool) : ∀ (n : Nat),
    (List.range n).filterMap (fun d => if K d then some (cnt K d) else none)
      = List.range (cnt K n) := by
  intro n
  induction n with
  | zero => rfl
  | succ n ih =>
    rw [List.range_succ, List.filterMap_append, ih,
      show List.filterMap (fun d => if K d then some (cnt K d) else none) [n]
        = (if K n then [cnt K n] else []) from by
        by_cases hK : K n = true <;> simp [hK]]
    by_cases hK : K n = true
    · rw [if_pos hK, show cnt K (n + 1) = cnt K n + 1 from by rw [cnt_succ, if_pos hK],
        List.range_succ]
    · have hK' : K n = false := by
        cases h2 : K n
        · rfl
        · exact absurd h2 hK
      rw [if_neg (by rw [hK']; exact Bool.false_ne_true), List.append_nil,
        show cnt K (n + 1) = cnt K n from by
          rw [cnt_succ, if_neg (by rw [hK']; exact Bool.false_ne_true)]
          omega]

/-- **C4**: reference compactness of `clean`.  A string produced by the
encoder's recursive serialization pass is the flattening of a token list
of declarations `@id=`, pointers `#id` and plain characters in which (i)
no plain character is a raw `@` or `#` (escaping guarantees this), (ii)
every pointer is immediately followed by a non-digit character (the
encoder always emits `]`, `,` or `}` there), (iii) the declaration ids
are exactly `0..n-1` in first-declaration order (ids are issued by a
counter), and (iv) every pointer refers to a declared id.  For every
such string, `clean` produces an output whose declarations are exactly
`@0= .. @(k-1)=`, renumbered in first-declaration order by the
compaction map `cnt` (`k = cnt n` counts the declarations consumed by at
least one pointer), all pointers are renumbered by the same map, and
every surviving declaration is consumed by at least one pointer of the
output. -/
theorem c4_clean_reference_compactness (l : List Tok)
    (hchr : chrOk l = true) (hptr : ptrClosedOk l = true)
    (hdecl : declIds l = List.range (declIds l).length)
    (hbound : ∀ p ∈ ptrIds l, p ∈ declIds l) :
    declMatches (clean (flatten l))
        = (List.range (cnt (keepSet l) (declIds l).length)).map natDigits
    ∧ ptrMatches (clean (flatten l)) = ((ptrIds l).map (cnt (keepSet l))).map natDigits
    ∧ (∀ ds ∈ declMatches (clean (flatten l)), ds ∈ ptrMatches (clean (flatten l))) := by
  obtain ⟨n, hdecl2⟩ : ∃ n, declIds l = List.range n := ⟨(declIds l).length, hdecl⟩
  have hnlen : (declIds l).length = n := by rw [hdecl2, List.length_range]
  rw [hnlen]
  have hboundn : ∀ p ∈ ptrIds l, p < n := by
    intro p hp
    have h2 := hbound p hp
    rw [hdecl2] at h2
    exact List.mem_range.mp h2
  have hclean : clean (flatten l) = flatten (transform (keepSet l) n l) := by
    unfold clean
    rw [show declMatches (flatten l) = (declIds l).map natDigits from
        declMatches_flatten l hchr,
      hdecl2, List.range_eq_range']
    have h0 := clean_fold_stages l hchr hptr n hdecl2 n 0 (by omega)
    rw [show transform (keepSet l) 0 l = l from transform_zero (keepSet l) l,
      show cnt (keepSet l) 0 = 0 from rfl] at h0
    rw [h0]
  have hchrT : chrOk (transform (keepSet l) n l) = true := chrOk_transform _ _ l hchr
  have hptrT : ptrClosedOk (transform (keepSet l) n l) = true :=
    ptrClosedOk_transform _ _ l hptr
  have hdT : declIds (transform (keepSet l) n l) = List.range (cnt (keepSet l) n) := by
    rw [declIds_transform, hdecl2,
      filterMap_congr_own
        (fun d => if d < n then (if keepSet l d then some (cnt (keepSet l) d) else none)
          else some d)
        (fun d => if keepSet l d then some (cnt (keepSet l) d) else none)
        (List.range n)
        (fun d hd => by
          show (if d < n then (if keepSet l d then some (cnt (keepSet l) d) else none)
            else some d) = (if keepSet l d then some (cnt (keepSet l) d) else none)
          rw [if_pos (List.mem_range.mp hd)]),
      filterMap_cnt_range (keepSet l) n]
  have hpT : ptrIds (transform (keepSet l) n l) = (ptrIds l).map (cnt (keepSet l)) := by
    rw [ptrIds_transform]
    exact List.map_congr_left (fun p hp => by simp [hboundn p hp])
  refine ⟨?_, ?_, ?_⟩
  · rw [hclean, show declMatches (flatten (transform (keepSet l) n l))
        = (declIds (transform (keepSet l) n l)).map natDigits from
        declMatches_flatten _ hchrT, hdT]
  · rw [hclean, show ptrMatches (flatten (transform (keepSet l) n l))
        = (ptrIds (transform (keepSet l) n l)).map natDigits from
        ptrMatches_flatten _ hchrT hptrT, hpT]
  · intro ds hds
    rw [hclean, show declMatches (flatten (transform (keepSet l) n l))
        = (declIds (transform (keepSet l) n l)).map natDigits from
        declMatches_flatten _ hchrT, hdT] at hds
    rw [hclean, show ptrMatches (flatten (transform (keepSet l) n l))
        = (ptrIds (transform (keepSet l) n l)).map natDigits from
        ptrMatches_flatten _ hchrT hptrT, hpT]
    obtain ⟨i, hi, rfl⟩ := List.mem_map.mp hds
    refine List.mem_map.mpr ⟨i, ?_, rfl⟩
    have hi2 : i ∈ (List.range n).filterMap
        (fun d => if keepSet l d then some (cnt (keepSet l) d) else none) := by
      rw [filterMap_cnt_range (keepSet l) n]
      exact hi
    obtain ⟨d, hd, hfd⟩ := List.mem_filterMap.mp hi2
    have hfd' : (if keepSet l d then some (cnt (keepSet l) d) else none) = some i := hfd
    by_cases hKd : keepSet l d = true
    · rw [if_pos hKd] at hfd'
      have h2 := Option.some.inj hfd'
      have hdp : d ∈ ptrIds l := of_decide_eq_true hKd
      rw [← h2]
      exact List.mem_map.mpr ⟨d, hdp, rfl⟩
    · rw [if_neg hKd] at hfd'
      simp at hfd'

/-- Witness for C4 at an actual encoder output: the token list flattens
to exactly `serialize` of the self-referential object (the string
`@0=3|{[1|self]%28:#0}`); its lone declaration is consumed, so `clean`
keeps it as `@0=` and the pointer stays `#0`. -/
theorem c4_clean_reference_compactness_witness :
    flatten (Tok.decl 0 :: Tok.chr '3' :: Tok.chr '|' :: Tok.chr '\x7b' :: Tok.chr '[' ::
        Tok.chr '1' :: Tok.chr '|' :: Tok.chr 's' :: Tok.chr 'e' :: Tok.chr 'l' ::
        Tok.chr 'f' :: Tok.chr ']' :: Tok.chr '%' :: Tok.chr '2' :: Tok.chr '8' ::
        Tok.chr ':' :: Tok.ptr 0 :: [Tok.chr '\x7d'])
      = selfRefOutput
    ∧ (declMatches (clean (flatten (Tok.decl 0 :: Tok.chr '3' :: Tok.chr '|' ::
          Tok.chr '\x7b' :: Tok.chr '[' :: Tok.chr '1' :: Tok.chr '|' :: Tok.chr 's' ::
          Tok.chr 'e' :: Tok.chr 'l' :: Tok.chr 'f' :: Tok.chr ']' :: Tok.chr '%' ::
          Tok.chr '2' :: Tok.chr '8' :: Tok.chr ':' :: Tok.ptr 0 :: [Tok.chr '\x7d'])))
        = (List.range (cnt (keepSet (Tok.decl 0 :: Tok.chr '3' :: Tok.chr '|' ::
            Tok.chr '\x7b' :: Tok.chr '[' :: Tok.chr '1' :: Tok.chr '|' :: Tok.chr 's' ::
            Tok.chr 'e' :: Tok.chr 'l' :: Tok.chr 'f' :: Tok.chr ']' :: Tok.chr '%' ::
            Tok.chr '2' :: Tok.chr '8' :: Tok.chr ':' :: Tok.ptr 0 :: [Tok.chr '\x7d']))
            (declIds (Tok.decl 0 :: Tok.chr '3' :: Tok.chr '|' :: Tok.chr '\x7b' ::
              Tok.chr '[' :: Tok.chr '1' :: Tok.chr '|' :: Tok.chr 's' :: Tok.chr 'e' ::
              Tok.chr 'l' :: Tok.chr 'f' :: Tok.chr ']' :: Tok.chr '%' :: Tok.chr '2' ::
              Tok.chr '8' :: Tok.chr ':' :: Tok.ptr 0 :: [Tok.chr '\x7d'])).length)).map
            natDigits
        ∧ ptrMatches (clean (flatten (Tok.decl 0 :: Tok.chr '3' :: Tok.chr '|' ::
            Tok.chr '\x7b' :: Tok.chr '[' :: Tok.chr '1' :: Tok.chr '|' :: Tok.chr 's' ::
            Tok.chr 'e' :: Tok.chr 'l' :: Tok.chr 'f' :: Tok.chr ']' :: Tok.chr '%' ::
            Tok.chr '2' :: Tok.chr '8' :: Tok.chr ':' :: Tok.ptr 0 :: [Tok.chr '\x7d'])))
          = ((ptrIds (Tok.decl 0 :: Tok.chr '3' :: Tok.chr '|' :: Tok.chr '\x7b' ::
              Tok.chr '[' :: Tok.chr '1' :: Tok.chr '|' :: Tok.chr 's' :: Tok.chr 'e' ::
              Tok.chr 'l' :: Tok.chr 'f' :: Tok.chr ']' :: Tok.chr '%' :: Tok.chr '2' ::
              Tok.chr '8' :: Tok.chr ':' :: Tok.ptr 0 :: [Tok.chr '\x7d'])).map
              (cnt (keepSet (Tok.decl 0 :: Tok.chr '3' :: Tok.chr '|' :: Tok.chr '\x7b' ::
                Tok.chr '[' :: Tok.chr '1' :: Tok.chr '|' :: Tok.chr 's' :: Tok.chr 'e' ::
                Tok.chr 'l' :: Tok.chr 'f' :: Tok.chr ']' :: Tok.chr '%' :: Tok.chr '2' ::
                Tok.chr '8' :: Tok.chr ':' :: Tok.ptr 0 :: [Tok.chr '\x7d'])))).map natDigits
        ∧ (∀ ds ∈ declMatches (clean (flatten (Tok.decl 0 :: Tok.chr '3' :: Tok.chr '|' ::
            Tok.chr '\x7b' :: Tok.chr '[' :: Tok.chr '1' :: Tok.chr '|' :: Tok.chr 's' ::
            Tok.chr 'e' :: Tok.chr 'l' :: Tok.chr 'f' :: Tok.chr ']' :: Tok.chr '%' ::
            Tok.chr '2' :: Tok.chr '8' :: Tok.chr ':' :: Tok.ptr 0 :: [Tok.chr '\x7d']))),
            ds ∈ ptrMatches (clean (flatten (Tok.decl 0 :: Tok.chr '3' :: Tok.chr '|' ::
              Tok.chr '\x7b' :: Tok.chr '[' :: Tok.chr '1' :: Tok.chr '|' :: Tok.chr 's' ::
              Tok.chr 'e' :: Tok.chr 'l' :: Tok.chr 'f' :: Tok.chr ']' :: Tok.chr '%' ::
              Tok.chr '2' :: Tok.chr '8' :: Tok.chr ':' :: Tok.ptr 0 ::
              [Tok.chr '\x7d']))))) :=
  ⟨rfl,
    c4_clean_reference_compactness
      (Tok.decl 0 :: Tok.chr '3' :: Tok.chr '|' :: Tok.chr '\x7b' :: Tok.chr '[' ::
        Tok.chr '1' :: Tok.chr '|' :: Tok.chr 's' :: Tok.chr 'e' :: Tok.chr 'l' ::
        Tok.chr 'f' :: Tok.chr ']' :: Tok.chr '%' :: Tok.chr '2' :: Tok.chr '8' ::
        Tok.chr ':' :: Tok.ptr 0 :: [Tok.chr '\x7d'])
      (by decide) (by decide) (by decide) (by decide)⟩

end Serime
